import Mathlib

/-!
Verification development for the `read_transactions_fm` repository.

The shared crawler base (`src/read_transactions/webcrawler/base.py`) is
shallowly embedded here: strings become `List Char`, pandas DataFrames become
a `DataFrame` structure over a dynamic `Cell` type, timestamps become `Int`,
monetary values become `ℚ`, filesystem/time effects become explicit
snapshot functions `Nat → _` indexed by the number of `os.listdir` calls,
and library parsers (`pd.to_datetime`, `pd.read_csv`, ...) become oracle
function parameters.
-/

namespace RT

/-- Characters of a string literal. -/
def cs (s : String) : List Char := s.data

/-! ## Generic character/list helpers (Python `str` operations) -/

/-- Python `str.lower()` (modelled on `Char.toLower`, ASCII-faithful). -/
def lowerCs (l : List Char) : List Char := l.map Char.toLower

/-- Python `str.strip()`: drop leading and trailing whitespace. -/
def trim (l : List Char) : List Char :=
  ((l.dropWhile Char.isWhitespace).reverse.dropWhile Char.isWhitespace).reverse

/-- Boolean list-of-chars equality-based "is this list a prefix of that one". -/
def isPrefB : List Char → List Char → Bool
  | [], _ => true
  | _ :: _, [] => false
  | a :: as, b :: bs => a == b && isPrefB as bs

/-- Python `needle in haystack` substring test. -/
def isSubB (p : List Char) : List Char → Bool
  | [] => isPrefB p []
  | s@(_ :: rest) => isPrefB p s || isSubB p rest

/-- Python `str.endswith(suffix)`. -/
def endsWithB (suf l : List Char) : Bool := isPrefB suf.reverse l.reverse

/-- Python `sep.join(parts)`. -/
def joinSep (sep : List Char) : List (List Char) → List Char
  | [] => []
  | x :: xs =>
    match xs with
    | [] => x
    | _ :: _ => x ++ sep ++ joinSep sep xs

/-- Helper for Python `str.split()`: accumulates the current word (reversed). -/
def wordsAux : List Char → List Char → List (List Char)
  | [], cur => if cur.isEmpty then [] else [cur.reverse]
  | c :: rest, cur =>
    if c.isWhitespace then
      if cur.isEmpty then wordsAux rest [] else cur.reverse :: wordsAux rest []
    else wordsAux rest (c :: cur)

/-- Python `str.split()` with no argument: split on whitespace runs, no empties. -/
def wordsWS (l : List Char) : List (List Char) := wordsAux l []

/-- Python `" ".join(s.split()).strip()` as used by `_normalize_dataframe`:
collapse internal whitespace runs to single spaces. -/
def collapseWs (l : List Char) : List Char := trim (joinSep (cs " ") (wordsWS l))

/-! ## Amount normalizer (`WebCrawler._normalize_amount`, base.py lines 1159-1202)

The element-wise action of the pandas pipeline on one string:
1. `str.replace(r"[^\d,.\-]", "")`   — keep digits, comma, dot, minus;
2. `str.contains(r"\.\d{3,},\d{1,2}$")` → drop all dots (German thousands);
3. `str.contains(r",\d{3,}\.\d{1,2}$")` → drop all commas (English thousands);
4. `str.replace(",", ".")`;
5. `pd.to_numeric(errors="coerce")`  — modelled as a decimal parse to `Option ℚ`
   (`none` models `NaN`). -/

/-- Step 1: strip every character that is not a digit, comma, dot or minus. -/
def stripCurrency (l : List Char) : List Char :=
  l.filter (fun c => c.isDigit || c == ',' || c == '.' || c == '-')

/-- Remove every occurrence of one character (`str.replace(x, "")`). -/
def removeAll (x : Char) (l : List Char) : List Char := l.filter (fun c => c != x)

/-- The anchored search `contains(r"<sep2><3+ digits><sep1><1-2 digits>$")`.
Because `\d{1,2}$` must cover the whole tail after `sep1` and the `\d{3,}`
block must be flanked by `sep2` and `sep1`, the regex matches exactly when,
reading from the end: the maximal trailing digit run has length 1-2, is
preceded by `sep1`, which is preceded by a maximal digit run of length ≥ 3,
which is preceded by `sep2`. -/
def checkSep (sep1 sep2 : Char) (s : List Char) : Bool :=
  decide (1 ≤ (s.reverse.takeWhile Char.isDigit).length) &&
  decide ((s.reverse.takeWhile Char.isDigit).length ≤ 2) &&
  (match s.reverse.dropWhile Char.isDigit with
   | c :: r2 =>
     c == sep1 &&
     decide (3 ≤ (r2.takeWhile Char.isDigit).length) &&
     (match r2.dropWhile Char.isDigit with
      | c2 :: _ => c2 == sep2
      | [] => false)
   | [] => false)

/-- Python `str.contains(r"\.\d{3,},\d{1,2}$")`: German thousands pattern. -/
def checkGermanThousands (s : List Char) : Bool := checkSep ',' '.' s

/-- Python `str.contains(r",\d{3,}\.\d{1,2}$")`: English thousands pattern. -/
def checkEnglishThousands (s : List Char) : Bool := checkSep '.' ',' s

/-- Step 4: `str.replace(",", ".")`. -/
def commasToDots (l : List Char) : List Char :=
  l.map (fun c => if c == ',' then '.' else c)

/-- Numeric value of a decimal digit character. -/
def dVal (c : Char) : Nat := c.toNat - 48

/-- Value of a big-endian decimal digit string. -/
def digitsVal (l : List Char) : Nat := l.foldl (fun a c => 10 * a + dVal c) 0

/-- Step 5, fractional parse: `pd.to_numeric` on a cleaned string, modelled as a
plain decimal parser (optional fraction part, as accepted by Python floats). -/
def parseUnsigned (t : List Char) : Option ℚ :=
  match t.dropWhile (fun c => c != '.') with
  | [] =>
    if !(t.takeWhile (fun c => c != '.')).isEmpty &&
        (t.takeWhile (fun c => c != '.')).all Char.isDigit then
      some (digitsVal (t.takeWhile (fun c => c != '.')) : ℚ)
    else none
  | _ :: fp =>
    if (!(t.takeWhile (fun c => c != '.')).isEmpty || !fp.isEmpty) &&
        (t.takeWhile (fun c => c != '.')).all Char.isDigit && fp.all Char.isDigit then
      some ((digitsVal (t.takeWhile (fun c => c != '.')) : ℚ) +
        (digitsVal fp : ℚ) / 10 ^ fp.length)
    else none

/-- Step 5 with an optional leading minus sign. `none` models `NaN`. -/
def parseDecimal (s : List Char) : Option ℚ :=
  if s.head? = some '-' then (parseUnsigned s.tail).map (fun q => -q)
  else parseUnsigned s

/-- Python `WebCrawler._normalize_amount` acting on one string
(base.py lines 1179-1198, element-wise). -/
def normalize_amount (s : List Char) : Option ℚ :=
  let s1 := stripCurrency s
  let s2 := if checkGermanThousands s1 then removeAll '.' s1 else s1
  let s3 := if checkEnglishThousands s2 then removeAll ',' s2 else s2
  parseDecimal (commasToDots s3)

/-! ## Currency renderers (the spec's "German/English currency rendering")

A decimal value with at most two fractional digits is represented as an
integer number of cents. Currency text always shows two fractional digits
(the spec's examples: `"1.234,56"`, `"-50,00 €"`), with thousands separators
every three integer digits. -/

/-- Character of a decimal digit. -/
def dChr (d : Nat) : Char := Char.ofNat (48 + d)

/-- Little-endian decimal digit characters of a natural number (`"0"` for 0). -/
def leChars (n : Nat) : List Char :=
  if n = 0 then ['0'] else (Nat.digits 10 n).map dChr

/-- Big-endian decimal digit characters. -/
def intChars (n : Nat) : List Char := (leChars n).reverse

/-- Insert a thousands separator after every three digits of a little-endian
digit list, as long as further digits remain. -/
def groupSep (sep : Char) : List Char → List Char
  | d1 :: d2 :: d3 :: d4 :: rest => d1 :: d2 :: d3 :: sep :: groupSep sep (d4 :: rest)
  | l => l

/-- Exactly-two-digit fractional part. -/
def fracChars (f : Nat) : List Char := [dChr (f / 10), dChr (f % 10)]

/-- Leading minus sign for negative amounts. -/
def sgnList (cents : Int) : List Char := if cents < 0 then ['-'] else []

/-- German currency text of `cents / 100`: dots as thousands separators, comma
as decimal separator, trailing euro sign (e.g. `-123456` ↦ `"-1.234,56 €"`). -/
def renderGerman (cents : Int) : List Char :=
  sgnList cents ++
    (groupSep '.' (leChars (cents.natAbs / 100))).reverse ++
    ',' :: fracChars (cents.natAbs % 100) ++ cs " €"

/-- English currency text of `cents / 100`: commas as thousands separators,
dot as decimal separator (e.g. `-123456` ↦ `"-1,234.56"`). -/
def renderEnglish (cents : Int) : List Char :=
  sgnList cents ++
    (groupSep ',' (leChars (cents.natAbs / 100))).reverse ++
    '.' :: fracChars (cents.natAbs % 100)

/-! ## Digit lemmas -/

theorem dChr_spec {d : Nat} (h : d < 10) :
    (dChr d).isDigit = true ∧ dVal (dChr d) = d ∧
      dChr d ≠ '.' ∧ dChr d ≠ ',' ∧ dChr d ≠ '-' ∧ dChr d ≠ '€' ∧ dChr d ≠ ' ' := by
  interval_cases d <;> refine ⟨rfl, rfl, ?_, ?_, ?_, ?_, ?_⟩ <;> decide

theorem leChars_spec (n : Nat) :
    ∀ c ∈ leChars n, (c.isDigit = true ∧ dVal c ≤ 9) ∧
      c ≠ '.' ∧ c ≠ ',' ∧ c ≠ '-' ∧ c ≠ '€' ∧ c ≠ ' ' := by
  intro c hc
  unfold leChars at hc
  by_cases h0 : n = 0
  · simp [h0] at hc
    subst hc; refine ⟨⟨rfl, by decide⟩, by decide, by decide, by decide, by decide, by decide⟩
  · simp [h0, List.mem_map] at hc
    obtain ⟨d, hd, rfl⟩ := hc
    have hlt : d < 10 := Nat.digits_lt_base (by norm_num) hd
    obtain ⟨h1, h2, h3, h4, h5, h6, h7⟩ := dChr_spec hlt
    exact ⟨⟨h1, by omega⟩, h3, h4, h5, h6, h7⟩

theorem leChars_ne_nil (n : Nat) : leChars n ≠ [] := by
  unfold leChars
  by_cases h0 : n = 0
  · simp [h0]
  · simp [h0, Nat.digits_ne_nil_iff_ne_zero, h0]

theorem foldl_digits (ds : List Nat) (a : Nat) (h : ∀ d ∈ ds, d < 10) :
    ((ds.map dChr).reverse.foldl (fun x c => 10 * x + dVal c) a) =
      a * 10 ^ ds.length + Nat.ofDigits 10 ds := by
  induction ds generalizing a with
  | nil => simp
  | cons d ds ih =>
    have hd : d < 10 := h d (List.mem_cons_self d ds)
    have hds : ∀ x ∈ ds, x < 10 := fun x hx => h x (List.mem_cons_of_mem d hx)
    simp only [List.map_cons, List.reverse_cons, List.foldl_append, List.foldl_cons,
      List.foldl_nil, ih a hds]
    rw [(dChr_spec hd).2.1, Nat.ofDigits_cons, List.length_cons, pow_succ]
    ring_nf

theorem takeWhile_append_of_all (p : Char → Bool) {l : List Char} (x : Char) (r : List Char)
    (hl : ∀ c ∈ l, p c = true) (hx : p x = false) :
    (l ++ x :: r).takeWhile p = l := by
  induction l with
  | nil => simp [List.takeWhile_cons, hx]
  | cons a as ih =>
    have ha : p a = true := hl a (List.mem_cons_self a as)
    simp only [List.cons_append, List.takeWhile_cons, ha, if_true]
    rw [ih (fun c hc => hl c (List.mem_cons_of_mem a hc))]

theorem dropWhile_append_of_all (p : Char → Bool) {l : List Char} (x : Char) (r : List Char)
    (hl : ∀ c ∈ l, p c = true) (hx : p x = false) :
    (l ++ x :: r).dropWhile p = x :: r := by
  induction l with
  | nil => simp [List.dropWhile_cons, hx]
  | cons a as ih =>
    have ha : p a = true := hl a (List.mem_cons_self a as)
    simp only [List.cons_append, List.dropWhile_cons, ha, if_true]
    exact ih (fun c hc => hl c (List.mem_cons_of_mem a hc))

theorem removeAll_eq_self {x : Char} {l : List Char} (h : ∀ c ∈ l, c ≠ x) :
    removeAll x l = l := by
  unfold removeAll
  exact List.filter_eq_self.mpr (fun c hc => by simpa using h c hc)

theorem removeAll_append (x : Char) (a b : List Char) :
    removeAll x (a ++ b) = removeAll x a ++ removeAll x b := List.filter_append a b

theorem removeAll_reverse (x : Char) (l : List Char) :
    removeAll x l.reverse = (removeAll x l).reverse := List.filter_reverse _ l

theorem commasToDots_append (a b : List Char) :
    commasToDots (a ++ b) = commasToDots a ++ commasToDots b := List.map_append _ a b

theorem commasToDots_eq_self {l : List Char} (h : ∀ c ∈ l, c ≠ ',') :
    commasToDots l = l := by
  unfold commasToDots
  induction l with
  | nil => rfl
  | cons a as ih =>
    have ha : (a == ',') = false := by
      simpa using h a (List.mem_cons_self a as)
    simp only [List.map_cons, ha, Bool.false_eq_true, if_false, List.cons.injEq, true_and]
    exact ih (fun c hc => h c (List.mem_cons_of_mem a hc))

theorem groupSep_short (sep : Char) {l : List Char} (h : l.length ≤ 3) :
    groupSep sep l = l := by
  rcases l with _ | ⟨a, _ | ⟨b, _ | ⟨c, _ | ⟨d, r⟩⟩⟩⟩ <;> first
    | rfl
    | (simp only [List.length_cons] at h; omega)

theorem mem_groupSep (sep : Char) : ∀ (l : List Char), ∀ c ∈ groupSep sep l, c ∈ l ∨ c = sep := by
  intro l
  induction l using groupSep.induct sep with
  | case1 d1 d2 d3 d4 rest ih =>
    intro c hc
    simp only [groupSep, List.mem_cons] at hc ⊢
    rcases hc with h | h | h | h | h
    · exact Or.inl (Or.inl h)
    · exact Or.inl (Or.inr (Or.inl h))
    · exact Or.inl (Or.inr (Or.inr (Or.inl h)))
    · exact Or.inr h
    · rcases ih c h with h' | h'
      · simp only [List.mem_cons] at h'
        exact Or.inl (Or.inr (Or.inr (Or.inr h')))
      · exact Or.inr h'
  | case2 l hne =>
    intro c hc
    rw [groupSep] at hc
    · exact Or.inl hc
    · exact hne

theorem removeAll_groupSep (sep : Char) :
    ∀ (l : List Char), (∀ c ∈ l, c ≠ sep) → removeAll sep (groupSep sep l) = l := by
  intro l
  induction l using groupSep.induct sep with
  | case1 d1 d2 d3 d4 rest ih =>
    intro h
    have hd : ∀ c ∈ ([d1, d2, d3] : List Char), c ≠ sep := by
      intro c hc
      apply h
      simp only [List.mem_cons] at hc ⊢
      tauto
    have hrest : ∀ c ∈ d4 :: rest, c ≠ sep := by
      intro c hc
      apply h
      simp only [List.mem_cons] at hc ⊢
      tauto
    show removeAll sep (d1 :: d2 :: d3 :: sep :: groupSep sep (d4 :: rest)) = _
    unfold removeAll
    simp only [List.filter_cons]
    have e1 : (d1 != sep) = true := by simpa using hd d1 (by simp)
    have e2 : (d2 != sep) = true := by simpa using hd d2 (by simp)
    have e3 : (d3 != sep) = true := by simpa using hd d3 (by simp)
    have e4 : (sep != sep) = false := by simp
    rw [e1, e2, e3, e4]
    have := ih hrest
    unfold removeAll at this
    simp [this]
  | case2 l hne =>
    intro h
    rw [groupSep]
    · exact removeAll_eq_self h
    · exact hne

theorem digitsVal_intChars (n : Nat) : digitsVal (intChars n) = n := by
  unfold digitsVal intChars leChars
  by_cases h0 : n = 0
  · simp [h0, dVal]
  · simp only [h0, if_false]
    have := foldl_digits (Nat.digits 10 n) 0
      (fun d hd => Nat.digits_lt_base (by norm_num) hd)
    simpa [Nat.ofDigits_digits] using this

theorem leChars_len_le {n : Nat} (hn : n < 1000) : (leChars n).length ≤ 3 := by
  unfold leChars
  by_cases h0 : n = 0
  · simp [h0]
  · simp only [h0, if_false, List.length_map]
    have h10 : (10 : Nat) ^ (Nat.digits 10 n).length ≤ 10 * n :=
      Nat.base_pow_length_digits_le 10 n (by norm_num) h0
    by_contra hgt
    push_neg at hgt
    have : 10 ^ 4 ≤ 10 ^ (Nat.digits 10 n).length :=
      Nat.pow_le_pow_right (by norm_num) hgt
    omega

theorem leChars_len_ge {n : Nat} (hn : 1000 ≤ n) : 4 ≤ (leChars n).length := by
  unfold leChars
  have h0 : n ≠ 0 := by omega
  simp only [h0, if_false, List.length_map]
  have hlt : n < 10 ^ (Nat.digits 10 n).length :=
    Nat.lt_base_pow_length_digits (by norm_num)
  by_contra hle
  push_neg at hle
  have : 10 ^ (Nat.digits 10 n).length ≤ 10 ^ 3 :=
    Nat.pow_le_pow_right (by norm_num) (by omega)
  omega

theorem exists_four_cons {l : List Char} (h : 4 ≤ l.length) :
    ∃ a b c x rest, l = a :: b :: c :: x :: rest := by
  rcases l with _ | ⟨a, _ | ⟨b, _ | ⟨c, _ | ⟨x, rest⟩⟩⟩⟩ <;>
    simp only [List.length_nil, List.length_cons] at h
  · omega
  · omega
  · omega
  · omega
  · exact ⟨a, b, c, x, rest, rfl⟩

theorem checkSep_eval_tail (sep1 sep2 x d1 d2 : Char) (a : List Char)
    (hd1 : d1.isDigit = true) (hd2 : d2.isDigit = true) (hx : x.isDigit = false) :
    checkSep sep1 sep2 (a ++ x :: [d1, d2]) =
      (x == sep1 &&
       decide (3 ≤ (a.reverse.takeWhile Char.isDigit).length) &&
       (match a.reverse.dropWhile Char.isDigit with
        | c2 :: _ => c2 == sep2
        | [] => false)) := by
  have hrev : (a ++ x :: [d1, d2]).reverse = [d2, d1] ++ x :: a.reverse := by simp
  have hmem : ∀ c ∈ ([d2, d1] : List Char), Char.isDigit c = true := by
    intro c hc
    simp only [List.mem_cons, List.not_mem_nil, or_false] at hc
    rcases hc with rfl | rfl <;> assumption
  have ht := takeWhile_append_of_all Char.isDigit x a.reverse hmem hx
  have hd := dropWhile_append_of_all Char.isDigit x a.reverse hmem hx
  unfold checkSep
  rw [hrev, ht, hd]
  simp

theorem fracChars_digits {f : Nat} (hf : f < 100) :
    ∀ c ∈ fracChars f, c.isDigit = true ∧ c ≠ ',' ∧ c ≠ '.' := by
  intro c hc
  have h1 : f / 10 < 10 := by omega
  have h2 : f % 10 < 10 := by omega
  simp only [fracChars, List.mem_cons, List.not_mem_nil, or_false] at hc
  rcases hc with rfl | rfl
  · exact ⟨(dChr_spec h1).1, (dChr_spec h1).2.2.2.1, (dChr_spec h1).2.2.1⟩
  · exact ⟨(dChr_spec h2).1, (dChr_spec h2).2.2.2.1, (dChr_spec h2).2.2.1⟩

theorem digitsVal_fracChars {f : Nat} (hf : f < 100) : digitsVal (fracChars f) = f := by
  have h1 : f / 10 < 10 := by omega
  have h2 : f % 10 < 10 := by omega
  unfold digitsVal fracChars
  simp only [List.foldl_cons, List.foldl_nil]
  rw [(dChr_spec h1).2.1, (dChr_spec h2).2.1]
  omega

theorem parseUnsigned_canonical (n f : Nat) (hf : f < 100) :
    parseUnsigned (intChars n ++ '.' :: fracChars f) = some ((n : ℚ) + (f : ℚ) / 100) := by
  have hip : ∀ c ∈ intChars n, ((fun c => c != '.') c) = true := by
    intro c hc
    have hmem : c ∈ leChars n := by simpa [intChars] using hc
    simpa using (leChars_spec n c hmem).2.1
  have ht := takeWhile_append_of_all (fun c => c != '.') '.' (fracChars f) hip (by decide)
  have hdw := dropWhile_append_of_all (fun c => c != '.') '.' (fracChars f) hip (by decide)
  have hneNil : intChars n ≠ [] := by
    unfold intChars
    simpa using leChars_ne_nil n
  have hne : (intChars n).isEmpty = false := by
    cases hc : intChars n with
    | nil => exact absurd hc hneNil
    | cons a as => rfl
  have hall : (intChars n).all Char.isDigit = true := by
    rw [List.all_eq_true]
    intro c hc
    exact ((leChars_spec n c (by simpa [intChars] using hc)).1).1
  have hfall : (fracChars f).all Char.isDigit = true := by
    rw [List.all_eq_true]
    intro c hc
    exact (fracChars_digits hf c hc).1
  unfold parseUnsigned
  rw [hdw]
  simp only [ht, hne, hall, hfall, Bool.not_false, Bool.true_or, Bool.true_and,
    Bool.and_self, if_true]
  rw [digitsVal_intChars, digitsVal_fracChars hf]
  norm_num [fracChars]

theorem parseDecimal_neg_cons (t : List Char) :
    parseDecimal ('-' :: t) = (parseUnsigned t).map (fun q => -q) := by
  unfold parseDecimal
  rw [if_pos (show ('-' :: t).head? = some '-' from rfl)]
  rfl

theorem parseDecimal_of_head_ne {t : List Char} (h : ¬ t.head? = some '-') :
    parseDecimal t = parseUnsigned t := by
  unfold parseDecimal
  rw [if_neg h]

theorem parseDecimal_canonical (cents : Int) :
    parseDecimal (sgnList cents ++
        intChars (cents.natAbs / 100) ++ '.' :: fracChars (cents.natAbs % 100)) =
      some ((cents : ℚ) / 100) := by
  unfold sgnList
  have hf : cents.natAbs % 100 < 100 := Nat.mod_lt _ (by norm_num)
  have hcore := parseUnsigned_canonical (cents.natAbs / 100) (cents.natAbs % 100) hf
  have hkey : (100 : ℚ) * ((cents.natAbs / 100 : Nat) : ℚ) + ((cents.natAbs % 100 : Nat) : ℚ)
      = ((cents.natAbs : Nat) : ℚ) := by
    exact_mod_cast Nat.div_add_mod cents.natAbs 100
  by_cases hneg : cents < 0
  · have habs : ((cents.natAbs : Nat) : ℚ) = -(cents : ℚ) := by
      rw [Int.cast_natAbs, abs_of_neg hneg]
      push_cast
      ring
    rw [if_pos hneg, List.singleton_append, List.cons_append, parseDecimal_neg_cons,
      hcore, Option.map_some']
    congr 1
    field_simp
    linarith [hkey, habs]
  · have habs : ((cents.natAbs : Nat) : ℚ) = (cents : ℚ) := by
      rw [Int.cast_natAbs, abs_of_nonneg (le_of_not_lt hneg)]
    rw [if_neg hneg, List.nil_append]
    obtain ⟨c0, rest, hc⟩ : ∃ c0 rest, intChars (cents.natAbs / 100) = c0 :: rest := by
      cases hc : intChars (cents.natAbs / 100) with
      | nil =>
        exfalso
        apply leChars_ne_nil (cents.natAbs / 100)
        have h2 := congrArg List.reverse hc
        simpa [intChars] using h2
      | cons a as => exact ⟨a, as, rfl⟩
    have hc0 : c0 ≠ '-' := by
      have hmem : c0 ∈ leChars (cents.natAbs / 100) := by
        rw [← List.mem_reverse]
        rw [show (leChars (cents.natAbs / 100)).reverse = intChars _ from rfl, hc]
        simp
      exact (leChars_spec _ c0 hmem).2.2.2.1
    have hhead : ¬ (intChars (cents.natAbs / 100) ++
        '.' :: fracChars (cents.natAbs % 100)).head? = some '-' := by
      rw [hc, List.cons_append, List.head?_cons]
      simpa using hc0
    rw [parseDecimal_of_head_ne hhead, hcore]
    congr 1
    field_simp
    linarith [hkey, habs]

theorem sgnList_chars (cents : Int) : ∀ c ∈ sgnList cents, c = '-' := by
  unfold sgnList
  split <;> simp

theorem stripCurrency_sgn (cents : Int) : ∀ c ∈ sgnList cents,
    (c.isDigit || c == ',' || c == '.' || c == '-') = true := by
  intro c hc
  rw [sgnList_chars cents c hc]
  decide

theorem sgn_not_sep (cents : Int) (x : Char) (hx : x ≠ '-') :
    ∀ c ∈ sgnList cents, c ≠ x := by
  intro c hc
  rw [sgnList_chars cents c hc]
  exact fun h => hx h.symm

theorem frac_cons_strip {f : Nat} (hf : f < 100) (x : Char)
    (hxp : (x.isDigit || x == ',' || x == '.' || x == '-') = true) :
    List.filter (fun c => c.isDigit || c == ',' || c == '.' || c == '-')
      (x :: fracChars f) = x :: fracChars f := by
  apply List.filter_eq_self.mpr
  intro c hc
  rcases List.mem_cons.mp hc with rfl | hc
  · exact hxp
  · simp [(fracChars_digits hf c hc).1]

theorem groupSep_rev_strip (sep : Char) (n : Nat)
    (hsep : (sep.isDigit || sep == ',' || sep == '.' || sep == '-') = true) :
    List.filter (fun c => c.isDigit || c == ',' || c == '.' || c == '-')
      (groupSep sep (leChars n)).reverse = (groupSep sep (leChars n)).reverse := by
  apply List.filter_eq_self.mpr
  intro c hc
  rw [List.mem_reverse] at hc
  rcases mem_groupSep sep _ c hc with h | h
  · simp [((leChars_spec n c h).1).1]
  · rw [h]; exact hsep

/-- The `stripCurrency` pass leaves the rendered German text minus the
euro-sign suffix. -/
theorem stripCurrency_renderGerman (cents : Int) :
    stripCurrency (renderGerman cents) =
      sgnList cents ++ ((groupSep '.' (leChars (cents.natAbs / 100))).reverse ++
        ',' :: fracChars (cents.natAbs % 100)) := by
  have hf : cents.natAbs % 100 < 100 := Nat.mod_lt _ (by norm_num)
  unfold renderGerman stripCurrency
  rw [List.append_assoc, List.append_assoc, List.filter_append, List.filter_append,
    List.filter_append]
  rw [List.filter_eq_self.mpr (stripCurrency_sgn cents),
    groupSep_rev_strip '.' _ (by decide),
    frac_cons_strip hf ',' (by decide)]
  have : List.filter (fun c => c.isDigit || c == ',' || c == '.' || c == '-') (cs " €") = [] := by
    decide
  rw [this, List.append_nil]

/-- After the German-thousands stage, the cleaned string is sign, plain
integer digits, comma, two fraction digits — whether or not the thousands
pattern fired. -/
theorem germanStage (cents : Int) :
    (if checkGermanThousands (stripCurrency (renderGerman cents)) then
        removeAll '.' (stripCurrency (renderGerman cents))
      else stripCurrency (renderGerman cents)) =
      sgnList cents ++ (intChars (cents.natAbs / 100) ++
        ',' :: fracChars (cents.natAbs % 100)) := by
  have hf : cents.natAbs % 100 < 100 := Nat.mod_lt _ (by norm_num)
  have hfd := fracChars_digits hf
  rw [stripCurrency_renderGerman]
  by_cases hsize : cents.natAbs / 100 < 1000
  · have hgs : groupSep '.' (leChars (cents.natAbs / 100)) = leChars (cents.natAbs / 100) :=
      groupSep_short _ (leChars_len_le hsize)
    have hnodot : ∀ c ∈ sgnList cents ++ ((groupSep '.' (leChars (cents.natAbs / 100))).reverse ++
        ',' :: fracChars (cents.natAbs % 100)), c ≠ '.' := by
      intro c hc
      rw [List.mem_append] at hc
      rcases hc with hc | hc
      · exact sgn_not_sep cents '.' (by decide) c hc
      · rw [List.mem_append] at hc
        rcases hc with hc | hc
        · rw [List.mem_reverse, hgs] at hc
          exact (leChars_spec _ c hc).2.1
        · rcases List.mem_cons.mp hc with rfl | hc
          · decide
          · exact (hfd c hc).2.2
    have hra := removeAll_eq_self hnodot
    split
    · rw [hra, hgs]; rfl
    · rw [hgs]; rfl
  · have h4 : 4 ≤ (leChars (cents.natAbs / 100)).length :=
      leChars_len_ge (by omega)
    obtain ⟨c1, c2, c3, c4, rest, hle⟩ := exists_four_cons h4
    have hd1 : c1.isDigit = true := ((leChars_spec _ c1 (by rw [hle]; simp)).1).1
    have hd2 : c2.isDigit = true := ((leChars_spec _ c2 (by rw [hle]; simp)).1).1
    have hd3 : c3.isDigit = true := ((leChars_spec _ c3 (by rw [hle]; simp)).1).1
    have hq1 : (dChr (cents.natAbs % 100 / 10)).isDigit = true :=
      (hfd _ (by unfold fracChars; simp)).1
    have hq2 : (dChr (cents.natAbs % 100 % 10)).isDigit = true :=
      (hfd _ (by unfold fracChars; simp)).1
    have hgroup : groupSep '.' (leChars (cents.natAbs / 100)) =
        c1 :: c2 :: c3 :: '.' :: groupSep '.' (c4 :: rest) := by
      rw [hle]; rfl
    have hcheck : checkGermanThousands (sgnList cents ++
        ((groupSep '.' (leChars (cents.natAbs / 100))).reverse ++
          ',' :: fracChars (cents.natAbs % 100))) = true := by
      unfold checkGermanThousands
      rw [show fracChars (cents.natAbs % 100) =
        [dChr (cents.natAbs % 100 / 10), dChr (cents.natAbs % 100 % 10)] from rfl]
      rw [← List.append_assoc]
      rw [checkSep_eval_tail ',' '.' ',' _ _ _ hq1 hq2 (by decide)]
      have hrev : (sgnList cents ++ (groupSep '.' (leChars (cents.natAbs / 100))).reverse).reverse
          = c1 :: c2 :: c3 :: '.' :: (groupSep '.' (c4 :: rest) ++ (sgnList cents).reverse) := by
        rw [List.reverse_append, List.reverse_reverse, hgroup]
        simp
      rw [hrev]
      have htw : (c1 :: c2 :: c3 :: '.' :: (groupSep '.' (c4 :: rest) ++
          (sgnList cents).reverse)).takeWhile Char.isDigit = [c1, c2, c3] := by
        have := takeWhile_append_of_all Char.isDigit '.'
          (groupSep '.' (c4 :: rest) ++ (sgnList cents).reverse)
          (l := [c1, c2, c3])
          (by intro c hc
              rcases List.mem_cons.mp hc with rfl | hc
              · exact hd1
              rcases List.mem_cons.mp hc with rfl | hc
              · exact hd2
              rcases List.mem_cons.mp hc with rfl | hc
              · exact hd3
              · simp at hc)
          (by decide)
        simpa using this
      have hdwx : (c1 :: c2 :: c3 :: '.' :: (groupSep '.' (c4 :: rest) ++
          (sgnList cents).reverse)).dropWhile Char.isDigit =
          '.' :: (groupSep '.' (c4 :: rest) ++ (sgnList cents).reverse) := by
        have := dropWhile_append_of_all Char.isDigit '.'
          (groupSep '.' (c4 :: rest) ++ (sgnList cents).reverse)
          (l := [c1, c2, c3])
          (by intro c hc
              rcases List.mem_cons.mp hc with rfl | hc
              · exact hd1
              rcases List.mem_cons.mp hc with rfl | hc
              · exact hd2
              rcases List.mem_cons.mp hc with rfl | hc
              · exact hd3
              · simp at hc)
          (by decide)
        simpa using this
      rw [htw, hdwx]
      simp
    rw [if_pos hcheck]
    rw [removeAll_append, removeAll_append]
    rw [removeAll_eq_self (sgn_not_sep cents '.' (by decide))]
    rw [removeAll_reverse]
    rw [removeAll_groupSep '.' _ (fun c hc => (leChars_spec _ c hc).2.1)]
    rw [removeAll_eq_self (l := ',' :: fracChars (cents.natAbs % 100)) ?_]
    · rfl
    · intro c hc
      rcases List.mem_cons.mp hc with rfl | hc
      · decide
      · exact (hfd c hc).2.2

/-- Sign-digits-comma-fraction strings never match the English thousands
pattern (the character before the trailing digit pair is a comma, not a dot). -/
theorem checkEnglish_comma_tail (cents : Int) (n f : Nat) (hf : f < 100) :
    checkEnglishThousands (sgnList cents ++ (intChars n ++ ',' :: fracChars f)) = false := by
  have hq1 : (dChr (f / 10)).isDigit = true := (fracChars_digits hf _ (by unfold fracChars; simp)).1
  have hq2 : (dChr (f % 10)).isDigit = true := (fracChars_digits hf _ (by unfold fracChars; simp)).1
  unfold checkEnglishThousands
  rw [show fracChars f = [dChr (f / 10), dChr (f % 10)] from rfl, ← List.append_assoc]
  rw [checkSep_eval_tail '.' ',' ',' _ _ _ hq1 hq2 (by decide)]
  simp

/-- Sign-digits-dot-fraction strings never match the German thousands
pattern (the character before the trailing digit pair is a dot, not a comma). -/
theorem checkGerman_dot_tail (cents : Int) (n f : Nat) (hf : f < 100) :
    checkGermanThousands (sgnList cents ++
      ((groupSep ',' (leChars n)).reverse ++ '.' :: fracChars f)) = false := by
  have hq1 : (dChr (f / 10)).isDigit = true := (fracChars_digits hf _ (by unfold fracChars; simp)).1
  have hq2 : (dChr (f % 10)).isDigit = true := (fracChars_digits hf _ (by unfold fracChars; simp)).1
  unfold checkGermanThousands
  rw [show fracChars f = [dChr (f / 10), dChr (f % 10)] from rfl, ← List.append_assoc]
  rw [checkSep_eval_tail ',' '.' '.' _ _ _ hq1 hq2 (by decide)]
  simp

/-- Replacing commas by dots on the sign-digits-comma-fraction string yields
the canonical parse input. -/
theorem commasToDots_german (cents : Int) (n f : Nat) (hf : f < 100) :
    commasToDots (sgnList cents ++ (intChars n ++ ',' :: fracChars f)) =
      sgnList cents ++ (intChars n ++ '.' :: fracChars f) := by
  rw [commasToDots_append, commasToDots_append]
  rw [commasToDots_eq_self (sgn_not_sep cents ',' (by decide))]
  rw [commasToDots_eq_self (l := intChars n)
    (fun c hc => (leChars_spec n c (by simpa [intChars] using hc)).2.2.1)]
  have hfrac : commasToDots (fracChars f) = fracChars f :=
    commasToDots_eq_self (fun c hc => (fracChars_digits hf c hc).2.1)
  show _ ++ (_ ++ commasToDots (',' :: fracChars f)) = _
  unfold commasToDots at hfrac ⊢
  simp only [List.map_cons]
  rw [hfrac]
  rfl

/-- Round-trip for the German currency rendering. -/
theorem normalize_renderGerman (cents : Int) :
    normalize_amount (renderGerman cents) = some ((cents : ℚ) / 100) := by
  have hf : cents.natAbs % 100 < 100 := Nat.mod_lt _ (by norm_num)
  simp only [normalize_amount]
  rw [germanStage]
  rw [checkEnglish_comma_tail cents _ _ hf]
  rw [if_neg (by simp)]
  rw [commasToDots_german cents _ _ hf, ← List.append_assoc]
  exact parseDecimal_canonical cents

/-- The `stripCurrency` pass is the identity on the rendered English text. -/
theorem stripCurrency_renderEnglish (cents : Int) :
    stripCurrency (renderEnglish cents) =
      sgnList cents ++ ((groupSep ',' (leChars (cents.natAbs / 100))).reverse ++
        '.' :: fracChars (cents.natAbs % 100)) := by
  have hf : cents.natAbs % 100 < 100 := Nat.mod_lt _ (by norm_num)
  unfold renderEnglish stripCurrency
  rw [List.append_assoc, List.filter_append, List.filter_append]
  rw [List.filter_eq_self.mpr (stripCurrency_sgn cents),
    groupSep_rev_strip ',' _ (by decide),
    frac_cons_strip hf '.' (by decide)]

/-- After the English-thousands stage, the cleaned string is sign, plain
integer digits, dot, two fraction digits — whether or not the thousands
pattern fired. -/
theorem englishStage (cents : Int) :
    (if checkEnglishThousands (sgnList cents ++
          ((groupSep ',' (leChars (cents.natAbs / 100))).reverse ++
            '.' :: fracChars (cents.natAbs % 100))) then
        removeAll ',' (sgnList cents ++
          ((groupSep ',' (leChars (cents.natAbs / 100))).reverse ++
            '.' :: fracChars (cents.natAbs % 100)))
      else sgnList cents ++
          ((groupSep ',' (leChars (cents.natAbs / 100))).reverse ++
            '.' :: fracChars (cents.natAbs % 100))) =
      sgnList cents ++ (intChars (cents.natAbs / 100) ++
        '.' :: fracChars (cents.natAbs % 100)) := by
  have hf : cents.natAbs % 100 < 100 := Nat.mod_lt _ (by norm_num)
  have hfd := fracChars_digits hf
  by_cases hsize : cents.natAbs / 100 < 1000
  · have hgs : groupSep ',' (leChars (cents.natAbs / 100)) = leChars (cents.natAbs / 100) :=
      groupSep_short _ (leChars_len_le hsize)
    have hnocomma : ∀ c ∈ sgnList cents ++ ((groupSep ',' (leChars (cents.natAbs / 100))).reverse ++
        '.' :: fracChars (cents.natAbs % 100)), c ≠ ',' := by
      intro c hc
      rw [List.mem_append] at hc
      rcases hc with hc | hc
      · exact sgn_not_sep cents ',' (by decide) c hc
      · rw [List.mem_append] at hc
        rcases hc with hc | hc
        · rw [List.mem_reverse, hgs] at hc
          exact (leChars_spec _ c hc).2.2.1
        · rcases List.mem_cons.mp hc with rfl | hc
          · decide
          · exact (hfd c hc).2.1
    have hra := removeAll_eq_self hnocomma
    split
    · rw [hra, hgs]; rfl
    · rw [hgs]; rfl
  · have h4 : 4 ≤ (leChars (cents.natAbs / 100)).length :=
      leChars_len_ge (by omega)
    obtain ⟨c1, c2, c3, c4, rest, hle⟩ := exists_four_cons h4
    have hd1 : c1.isDigit = true := ((leChars_spec _ c1 (by rw [hle]; simp)).1).1
    have hd2 : c2.isDigit = true := ((leChars_spec _ c2 (by rw [hle]; simp)).1).1
    have hd3 : c3.isDigit = true := ((leChars_spec _ c3 (by rw [hle]; simp)).1).1
    have hq1 : (dChr (cents.natAbs % 100 / 10)).isDigit = true :=
      (hfd _ (by unfold fracChars; simp)).1
    have hq2 : (dChr (cents.natAbs % 100 % 10)).isDigit = true :=
      (hfd _ (by unfold fracChars; simp)).1
    have hgroup : groupSep ',' (leChars (cents.natAbs / 100)) =
        c1 :: c2 :: c3 :: ',' :: groupSep ',' (c4 :: rest) := by
      rw [hle]; rfl
    have hcheck : checkEnglishThousands (sgnList cents ++
        ((groupSep ',' (leChars (cents.natAbs / 100))).reverse ++
          '.' :: fracChars (cents.natAbs % 100))) = true := by
      unfold checkEnglishThousands
      rw [show fracChars (cents.natAbs % 100) =
        [dChr (cents.natAbs % 100 / 10), dChr (cents.natAbs % 100 % 10)] from rfl]
      rw [← List.append_assoc]
      rw [checkSep_eval_tail '.' ',' '.' _ _ _ hq1 hq2 (by decide)]
      have hrev : (sgnList cents ++ (groupSep ',' (leChars (cents.natAbs / 100))).reverse).reverse
          = c1 :: c2 :: c3 :: ',' :: (groupSep ',' (c4 :: rest) ++ (sgnList cents).reverse) := by
        rw [List.reverse_append, List.reverse_reverse, hgroup]
        simp
      rw [hrev]
      have hall3 : ∀ c ∈ ([c1, c2, c3] : List Char), Char.isDigit c = true := by
        intro c hc
        rcases List.mem_cons.mp hc with rfl | hc
        · exact hd1
        rcases List.mem_cons.mp hc with rfl | hc
        · exact hd2
        rcases List.mem_cons.mp hc with rfl | hc
        · exact hd3
        · simp at hc
      have htw := takeWhile_append_of_all Char.isDigit ','
        (groupSep ',' (c4 :: rest) ++ (sgnList cents).reverse) (l := [c1, c2, c3])
        hall3 (by decide)
      have hdwx := dropWhile_append_of_all Char.isDigit ','
        (groupSep ',' (c4 :: rest) ++ (sgnList cents).reverse) (l := [c1, c2, c3])
        hall3 (by decide)
      simp only [List.cons_append, List.nil_append] at htw hdwx
      rw [htw, hdwx]
      simp
    rw [if_pos hcheck]
    rw [removeAll_append, removeAll_append]
    rw [removeAll_eq_self (sgn_not_sep cents ',' (by decide))]
    rw [removeAll_reverse]
    rw [removeAll_groupSep ',' _ (fun c hc => (leChars_spec _ c hc).2.2.1)]
    rw [removeAll_eq_self (l := '.' :: fracChars (cents.natAbs % 100)) ?_]
    · rfl
    · intro c hc
      rcases List.mem_cons.mp hc with rfl | hc
      · decide
      · exact (hfd c hc).2.1

/-- Round-trip for the English currency rendering. -/
theorem normalize_renderEnglish (cents : Int) :
    normalize_amount (renderEnglish cents) = some ((cents : ℚ) / 100) := by
  have hf : cents.natAbs % 100 < 100 := Nat.mod_lt _ (by norm_num)
  simp only [normalize_amount]
  rw [stripCurrency_renderEnglish]
  rw [checkGerman_dot_tail cents _ _ hf]
  simp only [Bool.false_eq_true, if_false]
  rw [englishStage]
  rw [commasToDots_eq_self ?h]
  case h =>
    intro c hc
    rw [List.mem_append] at hc
    rcases hc with hc | hc
    · exact sgn_not_sep cents ',' (by decide) c hc
    · rw [List.mem_append] at hc
      rcases hc with hc | hc
      · exact (leChars_spec _ c (by simpa [intChars] using hc)).2.2.1
      · rcases List.mem_cons.mp hc with rfl | hc
        · decide
        · exact (fracChars_digits hf c hc).2.1
  rw [← List.append_assoc]
  exact parseDecimal_canonical cents

/-! ## Data model: pandas cells, DataFrames, crawler state

A cell is a dynamically-typed pandas value. The file readers
(`pd.read_csv` / `pd.read_excel`) produce only `str` and `na` cells, so the
Python `str()` of `num`/`date` cells (which the pipeline never stringifies
in practice) is modelled opaquely. -/

inductive Cell where
  | str (s : List Char)
  | num (q : ℚ)
  | date (d : Int)
  | na
deriving DecidableEq

/-- Python `str(cell)` as produced by `astype(str)`
(`str(float("nan")) = "nan"`). -/
def pyStrOfCell : Cell → List Char
  | .str s => s
  | .na => cs "nan"
  | .num _ => cs "<float>"
  | .date _ => cs "<timestamp>"

/-- Python truthiness of a cell used as a column label. -/
def pyTruthy : Cell → Bool
  | .str s => !s.isEmpty
  | .num q => !(q == 0)
  | .date _ => true
  | .na => true

/-- A pandas DataFrame: ordered column labels and rows of cells
(row `i`, column `j` is `rows[i][j]`). -/
structure DataFrame where
  columns : List Cell
  rows : List (List Cell)
deriving DecidableEq

/-- Python `pd.DataFrame()`. -/
def emptyDF : DataFrame := { columns := [], rows := [] }

/-- Python `pandas.DataFrame.empty`: true when either axis has length zero. -/
def dfEmpty (df : DataFrame) : Bool := df.rows.isEmpty || df.columns.isEmpty

/-- The crawler's `self.data` slot: a single table or a name-keyed mapping. -/
inductive DataState where
  | single (df : DataFrame)
  | multi (m : List (List Char × DataFrame))
deriving DecidableEq

/-- The mutable state of a `WebCrawler` instance relevant to the claims.
`initialFileCount = none` models the `_initial_file_count` attribute being
absent (`hasattr` false); `driverOpen`/`tempDirExists` model the Selenium
session and the temporary download directory. -/
structure Crawler where
  startDate : Int
  endDate : Int
  state : List Char
  initialFileCount : Option Nat
  data : DataState
  driverOpen : Bool
  tempDirExists : Bool
deriving DecidableEq

/-- Python `WebCrawler.__init__` (base.py lines 141-174), restricted to the fields
above. Dates arrive already coerced to timestamps (modelled as `Int`); if
`start_date < end_date` the two are swapped (lines 144-150), and
`_initial_file_count` is eagerly set to `0` (line 159). -/
def mkCrawler (s e : Int) : Crawler :=
  { startDate := if s < e then e else s,
    endDate := if s < e then s else e,
    state := cs "initialized",
    initialFileCount := some 0,
    data := .single emptyDF,
    driverOpen := true,
    tempDirExists := true }

/-- Python `WebCrawler.close` (base.py lines 417-429): quit the driver, remove the
temporary directory. -/
def close (c : Crawler) : Crawler :=
  { c with driverOpen := false, tempDirExists := false }

/-- Python `WebCrawler.__exit__` (base.py lines 485-508): always runs `close()` and
returns `False` so exceptions are never suppressed. -/
def ctxExit (c : Crawler) (_exc : Option (List Char)) : Crawler × Bool :=
  (close c, false)

/-- Python `with crawler: body` semantics. The body is a state transformer
that either completes with a final state or raises carrying the state at the
raise point; `__exit__` runs on both paths, and its `False` return decides
whether the exception propagates. -/
def withCrawler (c : Crawler)
    (body : Crawler → Except (List Char × Crawler) Crawler) :
    Except (List Char) Unit × Crawler :=
  match body c with
  | .ok c1 =>
    ((ctxExit c1 none).2, (ctxExit c1 none).1) |> fun p => (Except.ok (), p.2)
  | .error (e, c1) =>
    (if (ctxExit c1 (some e)).2 then Except.ok () else Except.error e,
      (ctxExit c1 (some e)).1)

/-! ## Header-row detection (`WebCrawler._delete_header`, base.py lines 965-992) -/

/-- One row matches when `str(row.iloc[0]).strip().lower() == header_key.lower()`. -/
def matchHeaderRow (key : List Char) (row : List Cell) : Bool :=
  lowerCs (trim (pyStrOfCell (row.getD 0 Cell.na))) == lowerCs key

/-- Python `_delete_header`: on `None` or an empty frame return a fresh empty frame;
otherwise scan the first column for the key; a first match at row `k > 0`
discards rows `0..k-1` and promotes row `k` to the column header; a match at
row 0 or no match returns the input unchanged. -/
def delete_header (odf : Option DataFrame) (key : List Char) : DataFrame :=
  match odf with
  | none => emptyDF
  | some df =>
    if dfEmpty df then emptyDF
    else
      match df.rows.findIdx? (matchHeaderRow key) with
      | some k =>
        if 0 < k then
          { columns := (df.rows.drop k).headD [], rows := (df.rows.drop k).tail }
        else df
      | none => df

/-! ## Date normalization (`_normalize_date_in_dataframe`, base.py 1082-1121)

`pd.to_datetime(..., errors="coerce", dayfirst=...)` on a single cell is the
oracle `parse`; `NaT` is `none`. Numeric cells are not produced by the file
readers and are modelled as unparseable. -/

def toDatetimeCell (parse : List Char → Option Int) : Cell → Option Int
  | .str s => parse s
  | .date d => some d
  | .num _ => none
  | .na => none

/-- The per-row action of date normalization: coerce the date cell, drop the
row on `NaT`, keep it only when `end_date ≤ d ≤ start_date`, and store the
parsed date (formatted by `fmt` when `date_as_str` is set). -/
def normDateRow (parse : List Char → Option Int) (cr : Crawler)
    (dateAsStr : Bool) (fmt : Int → List Char) (j : Nat) (row : List Cell) :
    Option (List Cell) :=
  match toDatetimeCell parse (row.getD j Cell.na) with
  | none => none
  | some d =>
    if d ≤ cr.startDate ∧ cr.endDate ≤ d then
      some (row.set j (if dateAsStr then Cell.str (fmt d) else Cell.date d))
    else none

/-- Python `_normalize_date_in_dataframe`: missing column is logged and the frame
returned unchanged; otherwise coerce, drop `NaT` rows, filter to
`[end_date, start_date]`. -/
def normalize_date_in_dataframe (parse : List Char → Option Int) (cr : Crawler)
    (dateAsStr : Bool) (fmt : Int → List Char) (dateCol : Cell) (df : DataFrame) :
    DataFrame :=
  match df.columns.findIdx? (fun x => x == dateCol) with
  | none => df
  | some j => { df with rows := df.rows.filterMap (normDateRow parse cr dateAsStr fmt j) }

/-! ## Amount normalization in a frame (`_normalize_amount_in_dataframe`,
base.py 1123-1155) -/

/-- Element-wise `_normalize_amount` on a cell (`NaN` result is `na`). -/
def normAmountCell (cell : Cell) : Cell :=
  match normalize_amount (pyStrOfCell cell) with
  | some q => Cell.num q
  | none => Cell.na

/-- Python `_normalize_amount_in_dataframe`: missing column returns the frame
unchanged; otherwise normalize the column, then either drop `NaN` rows
(`remove_nan`) or fill them with `0.0`. -/
def normalize_amount_in_dataframe (removeNan : Bool) (amountCol : Cell)
    (df : DataFrame) : DataFrame :=
  match df.columns.findIdx? (fun x => x == amountCol) with
  | none => df
  | some j =>
    let rows1 := df.rows.map (fun r => r.set j (normAmountCell (r.getD j Cell.na)))
    if removeNan then
      { df with rows := rows1.filter (fun r => !(r.getD j Cell.na == Cell.na)) }
    else
      { df with rows := rows1.map (fun r =>
          if r.getD j Cell.na == Cell.na then r.set j (Cell.num 0) else r) }

/-! ## Column recognition and renaming (`_normalize_dataframe`, base.py
996-1080) -/

def kwDate : List (List Char) := [cs "datum"]
def kwAmount : List (List Char) := [cs "betrag", cs "summe", cs "amount"]
def kwPurpose : List (List Char) :=
  [cs "verwendungszweck", cs "zweck", cs "purpose", cs "beschreibung"]
def kwParty : List (List Char) :=
  [cs "empfänger", cs "absender", cs "receiver", cs "sender", cs "name"]

/-- Python `any(x in str(col).lower() for x in kws)`. -/
def matchesAnyKw (kws : List (List Char)) (col : Cell) : Bool :=
  kws.any (fun k => isSubB k (lowerCs (pyStrOfCell col)))

/-- First column whose name contains one of the keywords
(`[col for col in df.columns if ...][0]`). -/
def findCol (kws : List (List Char)) (cols : List Cell) : Option Cell :=
  cols.find? (matchesAnyKw kws)

/-- Python-dict assignment `m[k] = v`: overwrite in place or append. -/
def addRen (m : List (Cell × Cell)) (k v : Cell) : List (Cell × Cell) :=
  if m.any (fun p => p.1 == k) then
    m.map (fun p => if p.1 == k then (k, v) else p)
  else m ++ [(k, v)]

/-- One `if <found col>: rename_map[col] = target` step. -/
def renEntry (kws : List (List Char)) (target : Cell) (cols : List Cell)
    (m : List (Cell × Cell)) : List (Cell × Cell) :=
  match findCol kws cols with
  | some c => if pyTruthy c then addRen m c target else m
  | none => m

/-- The `rename_map` of `_normalize_dataframe` (date, amount, purpose,
party — in source order). -/
def buildRen (cols : List Cell) : List (Cell × Cell) :=
  renEntry kwParty (Cell.str (cs "Empfänger")) cols
    (renEntry kwPurpose (Cell.str (cs "Verwendungszweck")) cols
      (renEntry kwAmount (Cell.str (cs "Betrag")) cols
        (renEntry kwDate (Cell.str (cs "Datum")) cols [])))

def lookupRen (m : List (Cell × Cell)) (c : Cell) : Option Cell :=
  (m.find? (fun p => p.1 == c)).map (fun p => p.2)

/-- Python `df.rename(columns=m)` on one label (unmapped labels unchanged); also the
`rename_map[label]` lookups of lines 1049/1053. -/
def applyRen (m : List (Cell × Cell)) (c : Cell) : Cell := (lookupRen m c).getD c

/-- Stage 1 of `_normalize_dataframe`: rename recognized columns, then
normalize the date column and the amount column (each under the code's
truthiness guard, addressed by its post-rename name). -/
def ndfStage1 (parse : List Char → Option Int) (fmt : Int → List Char)
    (removeNan dateAsStr : Bool) (cr : Crawler) (df : DataFrame) : DataFrame :=
  let m := buildRen df.columns
  let df1 : DataFrame := { columns := df.columns.map (applyRen m), rows := df.rows }
  let df2 :=
    match findCol kwDate df.columns with
    | some c =>
      if pyTruthy c then normalize_date_in_dataframe parse cr dateAsStr fmt (applyRen m c) df1
      else df1
    | none => df1
  match findCol kwAmount df.columns with
  | some c =>
    if pyTruthy c then normalize_amount_in_dataframe removeNan (applyRen m c) df2
    else df2
  | none => df2

/-- Python `known_columns = list(rename_map.values())`. -/
def ndfKnown (df : DataFrame) : List Cell := (buildRen df.columns).map (fun p => p.2)

def vz2name : Cell := Cell.str (cs "Verwendungszweck 2")

/-- Python `df[label]` for one row: value at the first position of `label`. -/
def cellAt (cols : List Cell) (row : List Cell) (label : Cell) : Cell :=
  match cols.findIdx? (fun x => x == label) with
  | some j => row.getD j Cell.na
  | none => Cell.na

/-- The `Verwendungszweck 2` value of one row: for a single unknown column
the bare collapsed value (empty for `"nan"`/blank), for several unknown
columns `" | "`-joined `"col: value"` pairs over the non-empty, non-`"nan"`
values. -/
def foldVz2 (unknown cols : List Cell) (row : List Cell) : List Char :=
  if unknown.length == 1 then
    (fun v =>
      if (lowerCs v != cs "nan") && !(trim v).isEmpty then collapseWs v else [])
      (pyStrOfCell (cellAt cols row (unknown.headD Cell.na)))
  else
    joinSep (cs " | ") ((unknown.map (fun c => (c, pyStrOfCell (cellAt cols row c)))).filterMap
      (fun p =>
        if (!p.2.isEmpty) && (p.2 != cs "nan") then
          some (pyStrOfCell p.1 ++ cs ": " ++ collapseWs p.2)
        else none))

/-- Python `df[label] = vals`: replace an existing column in place, else append a
new column on the right. -/
def assignCol (df : DataFrame) (label : Cell) (vals : List Cell) : DataFrame :=
  match df.columns.findIdx? (fun x => x == label) with
  | some j => { df with rows := (df.rows.zip vals).map (fun p => p.1.set j p.2) }
  | none =>
    { columns := df.columns ++ [label],
      rows := (df.rows.zip vals).map (fun p => p.1 ++ [p.2]) }

/-- Python `df.drop(columns=labels)`. -/
def dropCols (df : DataFrame) (labels : List Cell) : DataFrame :=
  { columns := df.columns.filter (fun c => !(labels.any (fun l => l == c))),
    rows := df.rows.map (fun r =>
      ((df.columns.zip r).filter (fun p => !(labels.any (fun l => l == p.1)))).map
        (fun p => p.2)) }

/-- Stage 2 of `_normalize_dataframe` (lines 1057-1078): fold every column
not among the rename targets into `Verwendungszweck 2` and drop it. -/
def ndfFold (known : List Cell) (df3 : DataFrame) : DataFrame :=
  let unknown := df3.columns.filter (fun c => !(known.any (fun k => k == c)))
  if unknown.isEmpty then df3
  else
    dropCols
      (assignCol df3 vz2name (df3.rows.map (fun r => Cell.str (foldVz2 unknown df3.columns r))))
      unknown

/-- Python `WebCrawler._normalize_dataframe`. -/
def normalize_dataframe (parse : List Char → Option Int) (fmt : Int → List Char)
    (removeNan dateAsStr : Bool) (cr : Crawler) (df : DataFrame) : DataFrame :=
  ndfFold (ndfKnown df) (ndfStage1 parse fmt removeNan dateAsStr cr df)

/-! ## Download watcher (`_wait_for_new_file`, base.py lines 748-802)

Filesystem time is modelled by `snaps : Nat → List DirEntry`, the directory
listing observed by the `t`-th `os.listdir` call; the poll loop's time budget
becomes a fuel argument (iterations of the `while` loop). -/

structure DirEntry where
  name : List Char
  mtime : Int
deriving DecidableEq

/-- A name carries an in-progress marker (`.crdownload` / `.tmp`). -/
def isTempName (n : List Char) : Bool :=
  endsWithB (cs ".crdownload") n || endsWithB (cs ".tmp") n

/-- The inner `list_files()` helper: optionally exclude in-progress files. -/
def listFilesW (includeTemp : Bool) (l : List DirEntry) : List DirEntry :=
  if includeTemp then l else l.filter (fun f => !(isTempName f.name))

/-- Python `max(paths, key=os.path.getmtime)`: first entry of maximal mtime. -/
def newestFile (files : List DirEntry) : Option (List Char) :=
  match files with
  | [] => none
  | f :: rest =>
    some ((rest.foldl (fun best g => if best.mtime < g.mtime then g else best) f).name)

/-- The polling loop of `_wait_for_new_file`: on each tick compare the live
count against the baseline; on growth return the newest file and update the
baseline; on fuel exhaustion time out with `none`. -/
def wfnfLoop (snaps : Nat → List DirEntry) (includeTemp : Bool) :
    Nat → Nat → Crawler → Option (List Char) × Crawler
  | 0, _, c => (none, c)
  | fuel + 1, t, c =>
    if (listFilesW includeTemp (snaps t)).length > c.initialFileCount.getD 0 then
      (newestFile (listFilesW includeTemp (snaps t)),
        { c with initialFileCount := some (listFilesW includeTemp (snaps t)).length })
    else wfnfLoop snaps includeTemp fuel (t + 1) c

/-- Python `WebCrawler._wait_for_new_file`: the `hasattr` guard initializes the
baseline only when the attribute is absent (it never is after `__init__`),
then polls. -/
def wait_for_new_file (snaps : Nat → List DirEntry) (includeTemp : Bool)
    (fuel : Nat) (c : Crawler) : Option (List Char) × Crawler :=
  match c.initialFileCount with
  | none =>
    wfnfLoop snaps includeTemp fuel 1
      { c with initialFileCount := some (listFilesW includeTemp (snaps 0)).length }
  | some _ => wfnfLoop snaps includeTemp fuel 0 c

/-! ## File ingestor (`_read_temp_files`, base.py lines 804-885)

`snaps t` is the listing observed by the `t`-th `os.listdir` call; reading a
file through pandas is the oracle `parseFile` (`none` models a reader
exception, which the code logs and skips). -/

/-- In-progress marker files of a listing. -/
def pendingOf (l : List (List Char)) : List (List Char) :=
  l.filter (fun f => endsWithB (cs ".tmp") f || endsWithB (cs ".crdownload") f)

/-- Supported data-file extensions (`.csv` / `.xls` / `.xlsx`, on the
lowered name). -/
def supportedExt (f : List Char) : Bool :=
  endsWithB (cs ".csv") (lowerCs f) || endsWithB (cs ".xls") (lowerCs f) ||
    endsWithB (cs ".xlsx") (lowerCs f)

/-- The inner pending-wait loop: while in-progress markers exist, sleep and
re-list; returns the tick after the loop (the tick of the next listing). -/
def pendLoop (snaps : Nat → List (List Char)) : Nat → Nat → Nat
  | 0, t => t
  | fuel + 1, t => if (pendingOf (snaps t)).isEmpty then t + 1 else pendLoop snaps fuel (t + 1)

/-- Dispatch-by-extension read of one listing (`pd.read_csv` /
`pd.read_excel` behind `parseFile`; unsupported extensions and reader
errors are skipped). -/
def readListing (parseFile : List Char → Option DataFrame) (l : List (List Char)) :
    List (List Char × DataFrame) :=
  l.filterMap (fun f =>
    if supportedExt f then (parseFile f).map (fun df => (f, df)) else none)

/-- The retry loop of `_read_temp_files`: returns success and the (possibly
updated) `data` slot. -/
def rtfGo (snaps : Nat → List (List Char)) (parseFile : List Char → Option DataFrame)
    (pendFuel : Nat) : Nat → Nat → DataState → Bool × DataState
  | 0, _, d => (false, d)
  | retriesLeft + 1, t, d =>
    if (snaps t).isEmpty then rtfGo snaps parseFile pendFuel retriesLeft (t + 1) d
    else
      (fun t1 =>
        if !(pendingOf (snaps t1)).isEmpty then (false, d)
        else
          (fun content =>
            if content.isEmpty then (false, d)
            else
              (true,
                if 1 < content.length then DataState.multi content
                else DataState.single ((content.headD ([], emptyDF)).2)))
            (readListing parseFile (snaps (t1 + 1))))
        (pendLoop snaps pendFuel (t + 1))

/-- Python `WebCrawler._read_temp_files` acting on the `data` slot. -/
def read_temp_files (snaps : Nat → List (List Char))
    (parseFile : List Char → Option DataFrame) (maxRetries pendFuel : Nat)
    (d : DataState) : Bool × DataState :=
  rtfGo snaps parseFile pendFuel maxRetries 0 d

/-! ## Retry executor (`_retry_func`, base.py lines 887-918) -/

/-- One invocation's outcome: success, a Selenium `TimeoutException`, or any
other exception. -/
inductive Outcome where
  | ok
  | timeout
  | err
deriving DecidableEq

/-- The attempt loop of `_retry_func` over the outcome of each invocation
(`outcomes i` is the `i`-th invocation, 0-based); returns success and the
number of invocations performed. -/
def rfGo (outcomes : Nat → Outcome) : Nat → Nat → Bool × Nat
  | 0, used => (false, used)
  | left + 1, used =>
    match outcomes used with
    | .ok => (true, used + 1)
    | .timeout => rfGo outcomes left (used + 1)
    | .err => rfGo outcomes left (used + 1)

/-- Python `WebCrawler._retry_func`. -/
def retry_func (outcomes : Nat → Outcome) (maxRetries : Nat) : Bool × Nat :=
  rfGo outcomes maxRetries 0

/-! ## Substring and join lemmas -/

theorem isPrefB_append_self (l b : List Char) : isPrefB l (l ++ b) = true := by
  induction l with
  | nil => rfl
  | cons a as ih => simp [isPrefB, ih]

theorem isSubB_of_isPrefB {p s : List Char} (h : isPrefB p s = true) :
    isSubB p s = true := by
  cases s with
  | nil => exact h
  | cons x r => simp [isSubB, h]

theorem isSubB_append_right {p s : List Char} (a : List Char)
    (h : isSubB p s = true) : isSubB p (a ++ s) = true := by
  induction a with
  | nil => exact h
  | cons x a' ih => simp [isSubB, ih]

theorem isSubB_decomp {p s : List Char} (a b : List Char)
    (h : s = a ++ (p ++ b)) : isSubB p s = true := by
  rw [h]
  exact isSubB_append_right a (isSubB_of_isPrefB (isPrefB_append_self p b))

theorem joinSep_decomp (sep : List Char) {x : List Char} :
    ∀ {L : List (List Char)}, x ∈ L → ∃ a b, joinSep sep L = a ++ (x ++ b) := by
  intro L
  induction L with
  | nil => intro h; simp at h
  | cons y ys ih =>
    intro h
    rcases List.mem_cons.mp h with rfl | hmem
    · cases ys with
      | nil => exact ⟨[], [], by simp [joinSep]⟩
      | cons z zs => exact ⟨[], sep ++ joinSep sep (z :: zs), by simp [joinSep]⟩
    · have hys : ys ≠ [] := by rintro rfl; simp at hmem
      obtain ⟨a, b, hab⟩ := ih hmem
      refine ⟨y ++ sep ++ a, b, ?_⟩
      cases ys with
      | nil => exact absurd rfl hys
      | cons z zs =>
        show y ++ sep ++ joinSep sep (z :: zs) = _
        rw [hab]
        simp

/-- Zipping a list with its own map pairs each element with its image. -/
theorem zip_map_self {α β : Type} (f : α → β) (l : List α) :
    l.zip (l.map f) = l.map (fun a => (a, f a)) := by
  induction l with
  | nil => rfl
  | cons a as ih => simp [List.zip_cons_cons, ih]

/-! ## Evaluation of the fold stage -/

/-- For a column of the frame, not being among the unknown columns is the
same as matching one of the known (rename-target) labels. -/
theorem unknown_filter_point (known cols unknown : List Cell)
    (hunk : cols.filter (fun c => !(known.any (fun k => k == c))) = unknown) :
    ∀ c ∈ cols, (!(unknown.any (fun l => l == c))) = known.any (fun k => k == c) := by
  intro c hc
  by_cases hk : known.any (fun k => k == c) = true
  · rw [hk]
    have : unknown.any (fun l => l == c) = false := by
      rw [List.any_eq_false]
      intro u hu
      simp only [beq_iff_eq]
      intro hequ
      subst hequ
      rw [← hunk] at hu
      have := (List.mem_filter.mp hu).2
      rw [hk] at this
      simp at this
    rw [this]
    rfl
  · have hk' : known.any (fun k => k == c) = false := by
      cases h : known.any (fun k => k == c)
      · rfl
      · exact absurd h hk
    rw [hk']
    have hcu : c ∈ unknown := by
      rw [← hunk]
      exact List.mem_filter.mpr ⟨hc, by rw [hk']; rfl⟩
    have : unknown.any (fun l => l == c) = true :=
      List.any_eq_true.mpr ⟨c, hcu, by simp⟩
    rw [this]
    rfl

theorem ndfFold_eval (known : List Cell) (df3 : DataFrame) (unknown : List Cell)
    (hunk : df3.columns.filter (fun c => !(known.any (fun k => k == c))) = unknown)
    (hne : unknown ≠ [])
    (hvz : df3.columns.findIdx? (fun x => x == vz2name) = none)
    (hwf : ∀ r ∈ df3.rows, r.length = df3.columns.length) :
    ndfFold known df3 =
      { columns := df3.columns.filter (fun c => known.any (fun k => k == c)) ++ [vz2name],
        rows := df3.rows.map (fun r =>
          ((df3.columns.zip r).filter (fun p => known.any (fun k => k == p.1))).map
              (fun p => p.2)
            ++ [Cell.str (foldVz2 unknown df3.columns r)]) } := by
  have hvz' : ∀ x ∈ df3.columns, (x == vz2name) = false := by
    intro x hx
    exact List.findIdx?_eq_none_iff.mp hvz x hx
  have hsub : ∀ u ∈ unknown, u ∈ df3.columns := by
    intro u hu
    rw [← hunk] at hu
    exact (List.mem_filter.mp hu).1
  have hanyvz : unknown.any (fun l => l == vz2name) = false := by
    rw [List.any_eq_false]
    intro u hu
    simp only [beq_iff_eq]
    intro hequ
    subst hequ
    have := hvz' vz2name (hsub vz2name hu)
    simp at this
  have hpoint := unknown_filter_point known df3.columns unknown hunk
  have hneEmpty : unknown.isEmpty = false := by
    cases unknown with
    | nil => exact absurd rfl hne
    | cons a as => rfl
  unfold ndfFold
  simp only [hunk, hneEmpty, Bool.false_eq_true, if_false]
  unfold assignCol
  rw [hvz]
  unfold dropCols
  simp only []
  congr 1
  · rw [List.filter_append, List.filter_congr hpoint]
    congr 1
    simp [List.filter, hanyvz]
  · rw [zip_map_self, List.map_map, List.map_map]
    apply List.map_congr_left
    intro r hr
    simp only [Function.comp]
    rw [List.zip_append (by rw [hwf r hr])]
    rw [show ([vz2name].zip [Cell.str (foldVz2 unknown df3.columns r)]) =
      [(vz2name, Cell.str (foldVz2 unknown df3.columns r))] from rfl]
    rw [List.filter_append, List.map_append]
    congr 1
    · have hpt : ∀ p ∈ df3.columns.zip r,
          (!(unknown.any (fun l => l == p.1))) = known.any (fun k => k == p.1) := by
        intro p hp
        obtain ⟨a, b⟩ := p
        exact hpoint a (List.of_mem_zip hp).1
      rw [List.filter_congr hpt]
    · simp [List.filter, hanyvz]

/-- The collision case of the fold stage: when a column labeled exactly
`Verwendungszweck 2` is itself among the unknown columns, the assignment
`df["Verwendungszweck 2"] = ...` lands on that column in place and
`df.drop(columns=unknown_cols)` then deletes it, so the result keeps only
the known columns and has no `Verwendungszweck 2` column at all. -/
theorem ndfFold_collision (known : List Cell) (df3 : DataFrame) (unknown : List Cell)
    (hunk : df3.columns.filter (fun c => !(known.any (fun k => k == c))) = unknown)
    (hvzu : vz2name ∈ unknown) :
    (ndfFold known df3).columns =
        df3.columns.filter (fun c => known.any (fun k => k == c)) ∧
    vz2name ∉ (ndfFold known df3).columns := by
  have hpoint := unknown_filter_point known df3.columns unknown hunk
  have hmemcols : vz2name ∈ df3.columns := by
    have h := hvzu
    rw [← hunk] at h
    exact (List.mem_filter.mp h).1
  have hneEmpty : unknown.isEmpty = false := by
    cases hu : unknown with
    | nil => rw [hu] at hvzu; simp at hvzu
    | cons a as => rfl
  have hanyu : unknown.any (fun l => l == vz2name) = true :=
    List.any_eq_true.mpr ⟨vz2name, hvzu, by simp⟩
  obtain ⟨j, hj⟩ : ∃ j, df3.columns.findIdx? (fun x => x == vz2name) = some j := by
    cases h : df3.columns.findIdx? (fun x => x == vz2name) with
    | some j => exact ⟨j, rfl⟩
    | none =>
      exfalso
      have := List.findIdx?_eq_none_iff.mp h vz2name hmemcols
      simp at this
  have hcols : (ndfFold known df3).columns =
      df3.columns.filter (fun c => !(unknown.any (fun l => l == c))) := by
    unfold ndfFold
    simp only [hunk, hneEmpty, Bool.false_eq_true, if_false]
    unfold assignCol
    rw [hj]
    rfl
  constructor
  · rw [hcols]
    exact List.filter_congr hpoint
  · rw [hcols]
    intro hcontra
    have := (List.mem_filter.mp hcontra).2
    rw [hanyu] at this
    simp at this

theorem addRen_values {m : List (Cell × Cell)} {k v : Cell} {P : Cell → Prop}
    (hm : ∀ p ∈ m, P p.2) (hv : P v) :
    ∀ p ∈ addRen m k v, P p.2 := by
  intro p hp
  unfold addRen at hp
  split at hp
  · rw [List.mem_map] at hp
    obtain ⟨q, hq, rfl⟩ := hp
    by_cases hqk : (q.1 == k) = true
    · simp only [hqk, if_true]
      exact hv
    · simp only [hqk, Bool.false_eq_true, if_false]
      exact hm q hq
  · rw [List.mem_append] at hp
    rcases hp with hp | hp
    · exact hm p hp
    · simp only [List.mem_singleton] at hp
      subst hp
      exact hv

theorem renEntry_values {kws : List (List Char)} {target : Cell} {cols : List Cell}
    {m : List (Cell × Cell)} {P : Cell → Prop}
    (hm : ∀ p ∈ m, P p.2) (ht : P target) :
    ∀ p ∈ renEntry kws target cols m, P p.2 := by
  intro p hp
  unfold renEntry at hp
  cases hf : findCol kws cols with
  | none =>
    rw [hf] at hp
    exact hm p hp
  | some c =>
    rw [hf] at hp
    simp only [] at hp
    by_cases hc : pyTruthy c = true
    · rw [if_pos hc] at hp
      exact addRen_values hm ht p hp
    · rw [if_neg hc] at hp
      exact hm p hp

/-- One of the four rename-target labels of `_normalize_dataframe`. -/
def isRenTarget (v : Cell) : Prop :=
  v = Cell.str (cs "Datum") ∨ v = Cell.str (cs "Betrag") ∨
  v = Cell.str (cs "Verwendungszweck") ∨ v = Cell.str (cs "Empfänger")

/-- Every value of the rename map is one of the four rename targets. -/
theorem buildRen_values (cols : List Cell) :
    ∀ p ∈ buildRen cols, isRenTarget p.2 := by
  unfold buildRen
  intro p hp
  refine renEntry_values ?_ ?_ p hp
  · intro q hq
    refine renEntry_values ?_ ?_ q hq
    · intro r hr
      refine renEntry_values ?_ ?_ r hr
      · intro s hs
        refine renEntry_values ?_ ?_ s hs
        · intro t ht2
          simp at ht2
        · exact Or.inl rfl
      · exact Or.inr (Or.inl rfl)
    · exact Or.inr (Or.inr (Or.inl rfl))
  · exact Or.inr (Or.inr (Or.inr rfl))

/-- The rename targets never include `Verwendungszweck 2`. -/
theorem ndfKnown_targets (df : DataFrame) : ∀ v ∈ ndfKnown df, isRenTarget v := by
  intro v hv
  unfold ndfKnown at hv
  rw [List.mem_map] at hv
  obtain ⟨p, hp, hvp⟩ := hv
  rw [← hvp]
  exact buildRen_values df.columns p hp

/-- A pre-existing column labeled exactly `Verwendungszweck 2` is never a
rename target, so after renaming it is always an unknown column. -/
theorem vz2_not_in_ndfKnown (df : DataFrame) : vz2name ∉ ndfKnown df := by
  intro hmem
  have h := ndfKnown_targets df vz2name hmem
  unfold isRenTarget at h
  rcases h with h | h | h | h <;> exact absurd h (by decide)

theorem foldVz2_single (unknown cols row : List Cell) (c : Cell)
    (hc : c ∈ unknown) (hlen : unknown.length = 1) :
    foldVz2 unknown cols row =
      (if (lowerCs (pyStrOfCell (cellAt cols row c)) != cs "nan") &&
          !(trim (pyStrOfCell (cellAt cols row c))).isEmpty then
        collapseWs (pyStrOfCell (cellAt cols row c))
      else []) := by
  obtain ⟨x, rfl⟩ : ∃ x, unknown = [x] := by
    cases unknown with
    | nil => simp at hlen
    | cons a as =>
      cases as with
      | nil => exact ⟨a, rfl⟩
      | cons b bs => simp at hlen
  have hcx : c = x := by simpa using hc
  subst hcx
  rfl

theorem foldVz2_multi (unknown cols row : List Cell) (c : Cell)
    (hc : c ∈ unknown) (hlen : 2 ≤ unknown.length)
    (hv1 : pyStrOfCell (cellAt cols row c) ≠ [])
    (hv2 : pyStrOfCell (cellAt cols row c) ≠ cs "nan") :
    isSubB (pyStrOfCell c ++ cs ": " ++ collapseWs (pyStrOfCell (cellAt cols row c)))
      (foldVz2 unknown cols row) = true := by
  unfold foldVz2
  have hne1 : (unknown.length == 1) = false := by
    simp only [beq_eq_false_iff_ne, ne_eq]
    omega
  rw [hne1]
  simp only [Bool.false_eq_true, if_false]
  have hmem : pyStrOfCell c ++ cs ": " ++ collapseWs (pyStrOfCell (cellAt cols row c)) ∈
      (unknown.map (fun c => (c, pyStrOfCell (cellAt cols row c)))).filterMap
        (fun p =>
          if (!p.2.isEmpty) && (p.2 != cs "nan") then
            some (pyStrOfCell p.1 ++ cs ": " ++ collapseWs p.2)
          else none) := by
    rw [List.mem_filterMap]
    refine ⟨(c, pyStrOfCell (cellAt cols row c)), List.mem_map_of_mem _ hc, ?_⟩
    have h1 : (pyStrOfCell (cellAt cols row c)).isEmpty = false := by
      cases h : pyStrOfCell (cellAt cols row c) with
      | nil => exact absurd h hv1
      | cons a as => rfl
    have h2 : (pyStrOfCell (cellAt cols row c) != cs "nan") = true := by
      simpa using hv2
    simp only [h1, h2, Bool.not_false, Bool.and_self, if_true]
  obtain ⟨a, b, hab⟩ := joinSep_decomp (cs " | ") hmem
  exact isSubB_decomp a b hab

theorem normDateRow_none (parse : List Char → Option Int) (cr : Crawler)
    (dateAsStr : Bool) (fmt : Int → List Char) (j : Nat) (row : List Cell)
    (h : toDatetimeCell parse (row.getD j Cell.na) = none) :
    normDateRow parse cr dateAsStr fmt j row = none := by
  unfold normDateRow
  rw [h]

theorem normDateRow_some (parse : List Char → Option Int) (cr : Crawler)
    (dateAsStr : Bool) (fmt : Int → List Char) (j : Nat) (row : List Cell) (d : Int)
    (h : toDatetimeCell parse (row.getD j Cell.na) = some d) :
    normDateRow parse cr dateAsStr fmt j row =
      (if d ≤ cr.startDate ∧ cr.endDate ≤ d then
        some (row.set j (if dateAsStr then Cell.str (fmt d) else Cell.date d))
      else none) := by
  unfold normDateRow
  rw [h]

/-! ## Claim theorems -/

/-- Claim C1: after date normalization of a frame with a date column, a row
is retained if and only if its date cell parses to some `d` with
`end_date ≤ d ≤ start_date` (both inclusive); rows with unparseable dates are
unconditionally dropped (no default is substituted). -/
theorem date_filter_correct (parse : List Char → Option Int) (cr : Crawler)
    (dateAsStr : Bool) (fmt : Int → List Char) (dateCol : Cell) (df : DataFrame)
    (j : Nat) (hj : df.columns.findIdx? (fun x => x == dateCol) = some j) :
    (normalize_date_in_dataframe parse cr dateAsStr fmt dateCol df).rows =
      df.rows.filterMap (normDateRow parse cr dateAsStr fmt j) ∧
    ∀ row : List Cell,
      (normDateRow parse cr dateAsStr fmt j row).isSome = true ↔
        ∃ d, toDatetimeCell parse (row.getD j Cell.na) = some d ∧
          cr.endDate ≤ d ∧ d ≤ cr.startDate := by
  constructor
  · unfold normalize_date_in_dataframe
    rw [hj]
  · intro row
    cases h : toDatetimeCell parse (row.getD j Cell.na) with
    | none =>
      rw [normDateRow_none parse cr dateAsStr fmt j row h]
      simp
    | some d =>
      rw [normDateRow_some parse cr dateAsStr fmt j row d h]
      constructor
      · intro hs
        by_cases hcond : d ≤ cr.startDate ∧ cr.endDate ≤ d
        · exact ⟨d, rfl, hcond.2, hcond.1⟩
        · rw [if_neg hcond] at hs
          simp at hs
      · rintro ⟨d', hd', h1, h2⟩
        have hdd : d = d' := by simpa using hd'
        subst hdd
        rw [if_pos ⟨h2, h1⟩]
        rfl

/-- Witness for C1 at a concrete frame, date column and crawler. -/
theorem date_filter_correct_witness :
    (normalize_date_in_dataframe (fun s => if s == cs "x" then some 5 else none)
        (mkCrawler 10 0) false (fun _ => []) (Cell.str (cs "Datum"))
        (DataFrame.mk [Cell.str (cs "Datum")]
          [[Cell.str (cs "x")], [Cell.str (cs "y")]])).rows =
      (DataFrame.mk [Cell.str (cs "Datum")]
          [[Cell.str (cs "x")], [Cell.str (cs "y")]]).rows.filterMap
        (normDateRow (fun s => if s == cs "x" then some 5 else none)
          (mkCrawler 10 0) false (fun _ => []) 0) ∧
    ∀ row : List Cell,
      (normDateRow (fun s => if s == cs "x" then some 5 else none)
          (mkCrawler 10 0) false (fun _ => []) 0 row).isSome = true ↔
        ∃ d, toDatetimeCell (fun s => if s == cs "x" then some 5 else none)
            (row.getD 0 Cell.na) = some d ∧
          (mkCrawler 10 0).endDate ≤ d ∧ d ≤ (mkCrawler 10 0).startDate :=
  date_filter_correct (fun s => if s == cs "x" then some 5 else none)
    (mkCrawler 10 0) false (fun _ => []) (Cell.str (cs "Datum"))
    (DataFrame.mk [Cell.str (cs "Datum")] [[Cell.str (cs "x")], [Cell.str (cs "y")]])
    0 (by rfl)

/-- Claim C2: normalizing the German currency rendering of a value with at
most two fractional digits (`cents / 100`) reproduces the value exactly, and
likewise for the English rendering. -/
theorem amount_roundtrip (cents : Int) :
    normalize_amount (renderGerman cents) = some ((cents : ℚ) / 100) ∧
    normalize_amount (renderEnglish cents) = some ((cents : ℚ) / 100) :=
  ⟨normalize_renderGerman cents, normalize_renderEnglish cents⟩

/-- Claim C4: header-row detection on a non-empty frame: a first key match at
row `k > 0` discards rows `0..k-1` and promotes row `k` to the column header;
a match at row 0, or no match, returns the input unchanged. -/
theorem delete_header_cases (df : DataFrame) (key : List Char)
    (hr : df.rows ≠ []) (hc : df.columns ≠ []) :
    ((df.rows.findIdx? (matchHeaderRow key) = some 0 ∨
        df.rows.findIdx? (matchHeaderRow key) = none) →
      delete_header (some df) key = df) ∧
    (∀ k, df.rows.findIdx? (matchHeaderRow key) = some k → 0 < k →
      (delete_header (some df) key).columns = df.rows.getD k [] ∧
      (delete_header (some df) key).rows = df.rows.drop (k + 1)) := by
  have hemp : dfEmpty df = false := by
    unfold dfEmpty
    cases hrows : df.rows with
    | nil => exact absurd hrows hr
    | cons a as =>
      cases hcols : df.columns with
      | nil => exact absurd hcols hc
      | cons b bs => rfl
  unfold delete_header
  simp only []
  rw [hemp]
  simp only [Bool.false_eq_true, if_false]
  constructor
  · rintro (h0 | h0) <;> rw [h0]
    simp
  · intro k hk hpos
    rw [hk]
    simp only []
    rw [if_pos hpos]
    refine ⟨?_, List.tail_drop df.rows k⟩
    show (df.rows.drop k).headD [] = _
    rw [List.headD_eq_head?_getD, List.head?_drop]
    simp [List.getD_eq_getElem?_getD]

/-- Witness for C4: a frame whose key sits in row 1 is truncated and
promoted; the same theorem also covers the identity case. -/
theorem delete_header_cases_witness :
    (delete_header (some (DataFrame.mk [Cell.str (cs "A")]
        [[Cell.str (cs "junk")], [Cell.str (cs " DATUM ")], [Cell.str (cs "v")]]))
      (cs "datum")).columns =
      (DataFrame.mk [Cell.str (cs "A")]
        [[Cell.str (cs "junk")], [Cell.str (cs " DATUM ")], [Cell.str (cs "v")]]).rows.getD 1 [] ∧
    (delete_header (some (DataFrame.mk [Cell.str (cs "A")]
        [[Cell.str (cs "junk")], [Cell.str (cs " DATUM ")], [Cell.str (cs "v")]]))
      (cs "datum")).rows =
      (DataFrame.mk [Cell.str (cs "A")]
        [[Cell.str (cs "junk")], [Cell.str (cs " DATUM ")], [Cell.str (cs "v")]]).rows.drop 2 :=
  (delete_header_cases
    (DataFrame.mk [Cell.str (cs "A")]
      [[Cell.str (cs "junk")], [Cell.str (cs " DATUM ")], [Cell.str (cs "v")]])
    (cs "datum") (by decide) (by decide)).2 1 (by decide) (by decide)

/-- Claim C5: after construction `start_date ≥ end_date` always holds; a
start date chronologically before the end date is swapped with it rather
than rejected or kept. -/
theorem init_date_swap (s e : Int) :
    (mkCrawler s e).endDate ≤ (mkCrawler s e).startDate ∧
    (s < e → (mkCrawler s e).startDate = e ∧ (mkCrawler s e).endDate = s) ∧
    (¬ s < e → (mkCrawler s e).startDate = s ∧ (mkCrawler s e).endDate = e) := by
  unfold mkCrawler
  by_cases h : s < e <;> simp [h] <;> omega

/-- Witness for C5 with a start date earlier than the end date. -/
theorem init_date_swap_witness :
    (mkCrawler 1 5).endDate ≤ (mkCrawler 1 5).startDate ∧
    ((1 : Int) < 5 → (mkCrawler 1 5).startDate = 5 ∧ (mkCrawler 1 5).endDate = 1) :=
  ⟨(init_date_swap 1 5).1, (init_date_swap 1 5).2.1⟩

/-- Claim C3 counterexample: with recognized column `Datum` and a single
unrecognized column `Foo` holding `"a  b"`, normalization folds the bare
collapsed value `"a b"` into `Verwendungszweck 2`, and the claimed
`"Foo: a b"` pair does not appear in it — so with `M = 1` the value is not
stored as a `"colname: value"` pair. -/
theorem fold_pair_counterexample :
    normalize_dataframe (fun l => if l == cs "1" then some 5 else none) (fun _ => [])
        false false (mkCrawler 10 0)
        (DataFrame.mk [Cell.str (cs "Datum"), Cell.str (cs "Foo")]
          [[Cell.str (cs "1"), Cell.str (cs "a  b")]]) =
      DataFrame.mk [Cell.str (cs "Datum"), vz2name]
        [[Cell.date 5, Cell.str (cs "a b")]] ∧
    isSubB (cs "Foo" ++ cs ": " ++ collapseWs (cs "a  b")) (cs "a b") = false := by
  constructor
  · rfl
  · rfl

/-- Claim C3 amended: with `M ≥ 1` unrecognized columns, when none of them
is itself labeled `Verwendungszweck 2` the result has exactly the recognized
(renamed) columns plus `Verwendungszweck 2` (`N + 1` columns), and for each
surviving row: with `M ≥ 2` every non-empty, non-`"nan"` unrecognized value
appears whitespace-collapsed as a `"colname: value"` pair inside
`Verwendungszweck 2`, while with `M = 1` the folded field holds the bare
collapsed value without the column-name prefix. When a column labeled
exactly `Verwendungszweck 2` is present after renaming (it is then always
unrecognized, since the rename targets never produce that label), the folded
column is assigned onto it in place and dropped together with the unknown
columns, so the result has only the `N` recognized columns and no
`Verwendungszweck 2` column — its data is lost. -/
theorem fold_amended (parse : List Char → Option Int) (fmt : Int → List Char)
    (removeNan dateAsStr : Bool) (cr : Crawler) (df df3 : DataFrame)
    (known unknown : List Cell)
    (hdf3 : ndfStage1 parse fmt removeNan dateAsStr cr df = df3)
    (hknown : ndfKnown df = known)
    (hunk : df3.columns.filter (fun c => !(known.any (fun k => k == c))) = unknown)
    (hne : unknown ≠ [])
    (hwf : ∀ r ∈ df3.rows, r.length = df3.columns.length) :
    (df3.columns.findIdx? (fun x => x == vz2name) = none →
      (normalize_dataframe parse fmt removeNan dateAsStr cr df).columns =
          df3.columns.filter (fun c => known.any (fun k => k == c)) ++ [vz2name] ∧
      (normalize_dataframe parse fmt removeNan dateAsStr cr df).columns.length =
          (df3.columns.filter (fun c => known.any (fun k => k == c))).length + 1 ∧
      (normalize_dataframe parse fmt removeNan dateAsStr cr df).rows =
          df3.rows.map (fun r =>
            ((df3.columns.zip r).filter (fun p => known.any (fun k => k == p.1))).map
                (fun p => p.2) ++ [Cell.str (foldVz2 unknown df3.columns r)]) ∧
      (∀ r, ∀ c ∈ unknown,
        (unknown.length = 1 →
          foldVz2 unknown df3.columns r =
            (if (lowerCs (pyStrOfCell (cellAt df3.columns r c)) != cs "nan") &&
                !(trim (pyStrOfCell (cellAt df3.columns r c))).isEmpty then
              collapseWs (pyStrOfCell (cellAt df3.columns r c))
            else [])) ∧
        (2 ≤ unknown.length →
          pyStrOfCell (cellAt df3.columns r c) ≠ [] →
          pyStrOfCell (cellAt df3.columns r c) ≠ cs "nan" →
          isSubB (pyStrOfCell c ++ cs ": " ++
              collapseWs (pyStrOfCell (cellAt df3.columns r c)))
            (foldVz2 unknown df3.columns r) = true))) ∧
    (vz2name ∈ df3.columns →
      (normalize_dataframe parse fmt removeNan dateAsStr cr df).columns =
          df3.columns.filter (fun c => known.any (fun k => k == c)) ∧
      vz2name ∉ (normalize_dataframe parse fmt removeNan dateAsStr cr df).columns) := by
  have hnorm : normalize_dataframe parse fmt removeNan dateAsStr cr df = ndfFold known df3 := by
    unfold normalize_dataframe
    rw [hdf3, hknown]
  constructor
  · intro hvz
    rw [hnorm, ndfFold_eval known df3 unknown hunk hne hvz hwf]
    refine ⟨rfl, by simp, rfl, ?_⟩
    intro r c hcu
    exact ⟨fun h1 => foldVz2_single unknown df3.columns r c hcu h1,
      fun h2 hv1 hv2 => foldVz2_multi unknown df3.columns r c hcu h2 hv1 hv2⟩
  · intro hmem
    have hnk : vz2name ∉ known := by
      rw [← hknown]
      exact vz2_not_in_ndfKnown df
    have hany : known.any (fun k => k == vz2name) = false := by
      rw [List.any_eq_false]
      intro k hk
      simp only [beq_iff_eq]
      intro he
      exact hnk (he ▸ hk)
    have hvzu : vz2name ∈ unknown := by
      rw [← hunk]
      exact List.mem_filter.mpr ⟨hmem, by rw [hany]; rfl⟩
    rw [hnorm]
    exact ndfFold_collision known df3 unknown hunk hvzu

/-- Witness for the amended C3: the regular case on a concrete frame with
two unrecognized columns, and the collision case on a frame with columns
`Verwendungszweck` and `Verwendungszweck 2` (one column remains, no
`Verwendungszweck 2`). -/
theorem fold_amended_witness :
    (normalize_dataframe (fun _ => none) (fun _ => []) false false (mkCrawler 1 0)
        (DataFrame.mk [Cell.str (cs "X"), Cell.str (cs "Y")]
          [[Cell.str (cs "u"), Cell.str (cs "v")]])).columns =
      (DataFrame.mk [Cell.str (cs "X"), Cell.str (cs "Y")]
          [[Cell.str (cs "u"), Cell.str (cs "v")]]).columns.filter
        (fun c => ([] : List Cell).any (fun k => k == c)) ++ [vz2name] ∧
    (normalize_dataframe (fun _ => none) (fun _ => []) false false (mkCrawler 1 0)
        (DataFrame.mk [Cell.str (cs "X"), Cell.str (cs "Y")]
          [[Cell.str (cs "u"), Cell.str (cs "v")]])).columns.length =
      ((DataFrame.mk [Cell.str (cs "X"), Cell.str (cs "Y")]
          [[Cell.str (cs "u"), Cell.str (cs "v")]]).columns.filter
        (fun c => ([] : List Cell).any (fun k => k == c))).length + 1 ∧
    (normalize_dataframe (fun _ => none) (fun _ => []) false false (mkCrawler 1 0)
        (DataFrame.mk [Cell.str (cs "X"), Cell.str (cs "Y")]
          [[Cell.str (cs "u"), Cell.str (cs "v")]])).rows =
      (DataFrame.mk [Cell.str (cs "X"), Cell.str (cs "Y")]
          [[Cell.str (cs "u"), Cell.str (cs "v")]]).rows.map (fun r =>
        (((DataFrame.mk [Cell.str (cs "X"), Cell.str (cs "Y")]
            [[Cell.str (cs "u"), Cell.str (cs "v")]]).columns.zip r).filter
            (fun p => ([] : List Cell).any (fun k => k == p.1))).map (fun p => p.2) ++
          [Cell.str (foldVz2 [Cell.str (cs "X"), Cell.str (cs "Y")]
            (DataFrame.mk [Cell.str (cs "X"), Cell.str (cs "Y")]
              [[Cell.str (cs "u"), Cell.str (cs "v")]]).columns r)]) ∧
    (∀ r, ∀ c ∈ [Cell.str (cs "X"), Cell.str (cs "Y")],
      (([Cell.str (cs "X"), Cell.str (cs "Y")] : List Cell).length = 1 →
        foldVz2 [Cell.str (cs "X"), Cell.str (cs "Y")]
            (DataFrame.mk [Cell.str (cs "X"), Cell.str (cs "Y")]
              [[Cell.str (cs "u"), Cell.str (cs "v")]]).columns r =
          (if (lowerCs (pyStrOfCell (cellAt (DataFrame.mk [Cell.str (cs "X"),
                Cell.str (cs "Y")] [[Cell.str (cs "u"), Cell.str (cs "v")]]).columns
                r c)) != cs "nan") &&
              !(trim (pyStrOfCell (cellAt (DataFrame.mk [Cell.str (cs "X"),
                Cell.str (cs "Y")] [[Cell.str (cs "u"), Cell.str (cs "v")]]).columns
                r c))).isEmpty then
            collapseWs (pyStrOfCell (cellAt (DataFrame.mk [Cell.str (cs "X"),
              Cell.str (cs "Y")] [[Cell.str (cs "u"), Cell.str (cs "v")]]).columns
              r c))
          else [])) ∧
      (2 ≤ ([Cell.str (cs "X"), Cell.str (cs "Y")] : List Cell).length →
        pyStrOfCell (cellAt (DataFrame.mk [Cell.str (cs "X"), Cell.str (cs "Y")]
            [[Cell.str (cs "u"), Cell.str (cs "v")]]).columns r c) ≠ [] →
        pyStrOfCell (cellAt (DataFrame.mk [Cell.str (cs "X"), Cell.str (cs "Y")]
            [[Cell.str (cs "u"), Cell.str (cs "v")]]).columns r c) ≠ cs "nan" →
        isSubB (pyStrOfCell c ++ cs ": " ++
            collapseWs (pyStrOfCell (cellAt (DataFrame.mk [Cell.str (cs "X"),
              Cell.str (cs "Y")] [[Cell.str (cs "u"), Cell.str (cs "v")]]).columns
              r c)))
          (foldVz2 [Cell.str (cs "X"), Cell.str (cs "Y")]
            (DataFrame.mk [Cell.str (cs "X"), Cell.str (cs "Y")]
              [[Cell.str (cs "u"), Cell.str (cs "v")]]).columns r) = true)) ∧
    ((normalize_dataframe (fun _ => none) (fun _ => []) false false (mkCrawler 1 0)
        (DataFrame.mk [Cell.str (cs "Verwendungszweck"), vz2name]
          [[Cell.str (cs "p"), Cell.str (cs "q")]])).columns =
      (DataFrame.mk [Cell.str (cs "Verwendungszweck"), vz2name]
          [[Cell.str (cs "p"), Cell.str (cs "q")]]).columns.filter
        (fun c => ([Cell.str (cs "Verwendungszweck")] : List Cell).any (fun k => k == c)) ∧
    vz2name ∉ (normalize_dataframe (fun _ => none) (fun _ => []) false false
        (mkCrawler 1 0)
        (DataFrame.mk [Cell.str (cs "Verwendungszweck"), vz2name]
          [[Cell.str (cs "p"), Cell.str (cs "q")]])).columns) := by
  have hA := (fold_amended (fun _ => none) (fun _ => []) false false (mkCrawler 1 0)
    (DataFrame.mk [Cell.str (cs "X"), Cell.str (cs "Y")]
      [[Cell.str (cs "u"), Cell.str (cs "v")]])
    (DataFrame.mk [Cell.str (cs "X"), Cell.str (cs "Y")]
      [[Cell.str (cs "u"), Cell.str (cs "v")]])
    [] [Cell.str (cs "X"), Cell.str (cs "Y")]
    (by rfl) (by rfl) (by rfl) (by decide) (by decide)).1 (by rfl)
  have hB := (fold_amended (fun _ => none) (fun _ => []) false false (mkCrawler 1 0)
    (DataFrame.mk [Cell.str (cs "Verwendungszweck"), vz2name]
      [[Cell.str (cs "p"), Cell.str (cs "q")]])
    (DataFrame.mk [Cell.str (cs "Verwendungszweck"), vz2name]
      [[Cell.str (cs "p"), Cell.str (cs "q")]])
    [Cell.str (cs "Verwendungszweck")] [vz2name]
    (by rfl) (by rfl) (by rfl) (by decide) (by decide)).2 (by decide)
  exact ⟨hA.1, hA.2.1, hA.2.2.1, hA.2.2.2, hB⟩

/-- Claim C6 counterexample: immediately after construction — before any
wait-for-new-file call — the baseline file count already exists (it is 0),
contradicting lazy initialization. -/
theorem baseline_counterexample : (mkCrawler 1 0).initialFileCount ≠ none := by
  decide

/-- Claim C6 amended: `__init__` eagerly sets the baseline to 0 (the lazy
`hasattr` branch is dead); on a call that observes a live count above the
baseline, the watcher returns the most-recently-modified file's name and
updates the baseline to the new count. -/
theorem baseline_amended (s e : Int) (snaps : Nat → List DirEntry) (inc : Bool)
    (fuel : Nat) (c : Crawler) (b : Nat)
    (hb : c.initialFileCount = some b)
    (hgrow : b < (listFilesW inc (snaps 0)).length)
    (hfuel : 0 < fuel) :
    (mkCrawler s e).initialFileCount = some 0 ∧
    wait_for_new_file snaps inc fuel c =
      (newestFile (listFilesW inc (snaps 0)),
        { c with initialFileCount := some (listFilesW inc (snaps 0)).length }) := by
  refine ⟨rfl, ?_⟩
  obtain ⟨f, rfl⟩ : ∃ f', fuel = f' + 1 := ⟨fuel - 1, by omega⟩
  unfold wait_for_new_file
  rw [hb]
  show wfnfLoop snaps inc (f + 1) 0 c = _
  unfold wfnfLoop
  rw [hb]
  simp only [Option.getD_some]
  rw [if_pos hgrow]

/-- Witness for the amended C6. -/
theorem baseline_amended_witness :
    (mkCrawler 1 0).initialFileCount = some 0 ∧
    wait_for_new_file (fun _ => [DirEntry.mk (cs "a.csv") 1]) true 1 (mkCrawler 1 0) =
      (some (cs "a.csv"),
        Crawler.mk 1 0 (cs "initialized") (some 1) (DataState.single emptyDF) true true) :=
  baseline_amended 1 0 (fun _ => [DirEntry.mk (cs "a.csv") 1]) true 1 (mkCrawler 1 0) 0
    (by rfl) (by decide) (by decide)

/-- Claim C7: when the download directory is non-empty but in-progress marker
files (`.tmp`/`.crdownload`) never disappear, the whole read fails: the
operation returns `False` and the crawler's data slot is left unchanged. -/
theorem pending_timeout_fails (snaps : Nat → List (List Char))
    (parseFile : List Char → Option DataFrame) (maxRetries pendFuel : Nat)
    (d : DataState)
    (hne : (snaps 0).isEmpty = false)
    (hpend : ∀ t, (pendingOf (snaps t)).isEmpty = false)
    (hmr : 0 < maxRetries) :
    read_temp_files snaps parseFile maxRetries pendFuel d = (false, d) := by
  obtain ⟨r, rfl⟩ : ∃ r, maxRetries = r + 1 := ⟨maxRetries - 1, by omega⟩
  unfold read_temp_files
  unfold rtfGo
  rw [hne]
  simp only [Bool.false_eq_true, if_false]
  rw [hpend (pendLoop snaps pendFuel 1)]
  simp

/-- Witness for C7 with a persistent `.tmp` marker. -/
theorem pending_timeout_fails_witness :
    read_temp_files (fun _ => [cs "a.tmp"]) (fun _ => none) 1 2 (DataState.single emptyDF) =
      (false, DataState.single emptyDF) :=
  pending_timeout_fails (fun _ => [cs "a.tmp"]) (fun _ => none) 1 2
    (DataState.single emptyDF) (by decide) (fun _ => rfl) (by decide)

/-- Claim C8: scoped use guarantees cleanup on every exit path — the final
crawler state has the browser session released and the temporary directory
deleted whether the body completed or raised — and `__exit__` returns
`False`, so a raised exception propagates unchanged. -/
theorem ctx_exit_guarantees (c : Crawler)
    (body : Crawler → Except (List Char × Crawler) Crawler)
    (exc : Option (List Char)) :
    (ctxExit c exc).2 = false ∧
    (withCrawler c body).2.driverOpen = false ∧
    (withCrawler c body).2.tempDirExists = false ∧
    (withCrawler c body).1 =
      (match body c with
       | .ok _ => Except.ok ()
       | .error (e, _) => Except.error e) := by
  refine ⟨rfl, ?_, ?_, ?_⟩
  all_goals
    unfold withCrawler
    cases hb : body c with
    | ok c1 => simp [ctxExit, close]
    | error p =>
      obtain ⟨e, c1⟩ := p
      simp [ctxExit, close]

/-! ### Retry-executor lemmas (C9) -/

theorem rfGo_ok (outcomes : Nat → Outcome) (left used : Nat)
    (h : outcomes used = .ok) :
    rfGo outcomes (left + 1) used = (true, used + 1) := by
  unfold rfGo
  rw [h]

theorem rfGo_step_ne (outcomes : Nat → Outcome) (left used : Nat)
    (h : outcomes used ≠ .ok) :
    rfGo outcomes (left + 1) used = rfGo outcomes left (used + 1) := by
  show (match outcomes used with
    | Outcome.ok => (true, used + 1)
    | Outcome.timeout => rfGo outcomes left (used + 1)
    | Outcome.err => rfGo outcomes left (used + 1)) = rfGo outcomes left (used + 1)
  cases ho : outcomes used with
  | ok => exact absurd ho h
  | timeout => rfl
  | err => rfl

theorem rfGo_true_iff (outcomes : Nat → Outcome) : ∀ left used,
    ((rfGo outcomes left used).1 = true ↔
      ∃ i, used ≤ i ∧ i < used + left ∧ outcomes i = .ok) := by
  intro left
  induction left with
  | zero =>
    intro used
    constructor
    · intro h
      simp [rfGo] at h
    · rintro ⟨i, h1, h2, _⟩
      omega
  | succ l ih =>
    intro used
    by_cases h : outcomes used = .ok
    · rw [rfGo_ok _ _ _ h]
      exact ⟨fun _ => ⟨used, le_refl _, by omega, h⟩, fun _ => rfl⟩
    · rw [rfGo_step_ne _ _ _ h, ih (used + 1)]
      constructor
      · rintro ⟨i, h1, h2, h3⟩
        exact ⟨i, by omega, by omega, h3⟩
      · rintro ⟨i, h1, h2, h3⟩
        refine ⟨i, ?_, by omega, h3⟩
        rcases Nat.eq_or_lt_of_le h1 with rfl | hlt
        · exact absurd h3 h
        · omega

theorem rfGo_first (outcomes : Nat → Outcome) : ∀ left used i, used ≤ i →
    i < used + left → outcomes i = .ok →
    (∀ j, used ≤ j → j < i → outcomes j ≠ .ok) →
    rfGo outcomes left used = (true, i + 1) := by
  intro left
  induction left with
  | zero =>
    intro used i h1 h2
    omega
  | succ l ih =>
    intro used i h1 h2 hok hmin
    rcases Nat.eq_or_lt_of_le h1 with rfl | hlt
    · exact rfGo_ok _ _ _ hok
    · have hne : outcomes used ≠ .ok := hmin used (le_refl _) hlt
      rw [rfGo_step_ne _ _ _ hne]
      exact ih (used + 1) i hlt (by omega) hok (fun j hj1 hj2 => hmin j (by omega) hj2)

theorem rfGo_all_fail (outcomes : Nat → Outcome) : ∀ left used,
    (∀ i, used ≤ i → i < used + left → outcomes i ≠ .ok) →
    rfGo outcomes left used = (false, used + left) := by
  intro left
  induction left with
  | zero =>
    intro used h
    simp [rfGo]
  | succ l ih =>
    intro used h
    have hne := h used (le_refl _) (by omega)
    rw [rfGo_step_ne _ _ _ hne, ih (used + 1) (fun i h1 h2 => h i (by omega) (by omega))]
    congr 1
    omega

theorem rfGo_kind_blind (outcomes outcomes' : Nat → Outcome)
    (hiff : ∀ i, outcomes i = .ok ↔ outcomes' i = .ok) :
    ∀ left used, rfGo outcomes left used = rfGo outcomes' left used := by
  intro left
  induction left with
  | zero => intro used; rfl
  | succ l ih =>
    intro used
    by_cases h : outcomes used = .ok
    · rw [rfGo_ok _ _ _ h, rfGo_ok _ _ _ ((hiff used).mp h)]
    · have h' : outcomes' used ≠ .ok := fun hc => h ((hiff used).mpr hc)
      rw [rfGo_step_ne _ _ _ h, rfGo_step_ne _ _ _ h', ih (used + 1)]

/-- Claim C9: the retry executor succeeds exactly when some of the first
`max_retries` invocations completes (stopping right after the first
success), fails after `max_retries` raising attempts, and is blind to
whether a failing attempt raised a timeout or any other exception. -/
theorem retry_bound (outcomes : Nat → Outcome) (maxRetries : Nat)
    (_hmr : 1 ≤ maxRetries) :
    ((retry_func outcomes maxRetries).1 = true ↔
      ∃ i, i < maxRetries ∧ outcomes i = .ok) ∧
    (∀ i, i < maxRetries → outcomes i = .ok → (∀ j, j < i → outcomes j ≠ .ok) →
      retry_func outcomes maxRetries = (true, i + 1)) ∧
    ((∀ i, i < maxRetries → outcomes i ≠ .ok) →
      retry_func outcomes maxRetries = (false, maxRetries)) ∧
    (∀ outcomes' : Nat → Outcome, (∀ i, outcomes i = .ok ↔ outcomes' i = .ok) →
      retry_func outcomes maxRetries = retry_func outcomes' maxRetries) := by
  refine ⟨?_, ?_, ?_, ?_⟩
  · rw [show retry_func outcomes maxRetries = rfGo outcomes maxRetries 0 from rfl,
      rfGo_true_iff]
    constructor
    · rintro ⟨i, _, h2, h3⟩
      exact ⟨i, by omega, h3⟩
    · rintro ⟨i, h1, h3⟩
      exact ⟨i, by omega, by omega, h3⟩
  · intro i h1 hok hmin
    exact rfGo_first outcomes maxRetries 0 i (by omega) (by omega) hok
      (fun j _ hj => hmin j hj)
  · intro h
    have := rfGo_all_fail outcomes maxRetries 0 (fun i _ h2 => h i (by omega))
    simpa using this
  · intro o' hiff
    exact rfGo_kind_blind outcomes o' hiff maxRetries 0

/-- Witness for C9: success on the second attempt stops after two
invocations. -/
theorem retry_bound_witness :
    retry_func (fun i => if i = 1 then Outcome.ok else Outcome.timeout) 3 = (true, 2) :=
  (retry_bound (fun i => if i = 1 then Outcome.ok else Outcome.timeout) 3
      (by norm_num)).2.1 1 (by norm_num) (by simp)
    (fun j hj => by interval_cases j; simp)

/-- Claim C10: header-row detection on `None` or an empty frame — including
one with correct headers but zero rows, and one with rows but no columns —
returns a fresh empty frame with no columns, so existing headers are not
preserved. -/
theorem delete_header_empty (key : List Char) (cols : List Cell)
    (rows : List (List Cell)) :
    delete_header none key = emptyDF ∧
    delete_header (some (DataFrame.mk cols [])) key = emptyDF ∧
    delete_header (some (DataFrame.mk [] rows)) key = emptyDF ∧
    emptyDF.columns = [] := by
  refine ⟨rfl, rfl, ?_, rfl⟩
  cases rows with
  | nil => rfl
  | cons r rs => rfl

end RT
